import Mathlib

/-
Verification of the hybrid-logical-clock library (src/hlc.ts, src/internal.ts,
src/defaults.ts, src/erreur.ts) against its natural-language specification.

Strings are modelled as lists of characters (JavaScript strings are sequences
of code units; every string handled here is ASCII, so one char per code unit).
JavaScript numbers holding millisecond epoch times are modelled as `Int`
(the spec fixes them to integer milliseconds; an injected wall clock may
regress arbitrarily, hence the signed type), and logical counters as `Nat`.
The platform built-ins used by the source (`String.prototype.split`,
`parseInt`, `Date` construction from an ISO-8601 string,
`Date.prototype.toISOString`) are modelled from their ECMAScript semantics,
including the Date Time String Format's expanded-year (plus-or-minus YYYYYY)
production and the TimeClip bound of plus-or-minus 8.64e15 ms; for date-time
strings without a UTC offset the host time zone is taken to be UTC.
-/

namespace HLC

/-- Source constant LOGICAL_CLOCK_LENGTH (src/defaults.ts): number of digits
of the logical counter field in the string encoding. -/
def LOGICAL_CLOCK_LENGTH : Nat := 8

/-- Source constant MAX_LOGICAL_CLOCK (src/defaults.ts): maximum logical
counter value, 10^8 - 1 = 99999999. -/
def MAX_LOGICAL_CLOCK : Nat := 10 ^ LOGICAL_CLOCK_LENGTH - 1

/-- Source constant MAX_EPOCH (src/defaults.ts): the millisecond instant
9999-12-31T23:59:59.999Z. -/
def MAX_EPOCH : Nat := 253402300799999

/-- Source constant DEFAULT_MAX_DRIFT (src/defaults.ts): five minutes in
milliseconds. -/
def DEFAULT_MAX_DRIFT : Int := 5 * 60 * 1000

/-- Timestamp value type (interface HLCTimestamp in src/types.ts): physical
time `ts` in ms since epoch, logical counter `cl`, node id `id`. The
`toString` member of the source object is the pure function `serializeHLC`
below (the in-object cache is an optimization with no observable effect). -/
structure HLCTimestamp where
  ts : Int
  cl : Nat
  id : List Char
deriving DecidableEq, Repr

/-- Reasons of TimestampParsingError, one per distinct message string thrown
by parseHLCTimestampStrict in src/hlc.ts. -/
inductive ParseReason where
  | invalidFormat
  | invalidNodeId
  | invalidTimestamp
  | invalidLogicalCounter
deriving DecidableEq, Repr

/-- Error taxonomy THLCErreurData (src/erreur.ts). -/
inductive HLCErreur where
  | clockDriftOverflow (maxDrift : Int) (drift : Int)
  | logicalCounterOverflow (max : Nat) (current : Nat)
  | timestampParsingError (input : List Char) (reason : ParseReason)
deriving DecidableEq, Repr

/-- Source function compareHLCTimestamps (src/hlc.ts). -/
def compareHLCTimestamps (t1 t2 : HLCTimestamp) : Int :=
  if t1.ts < t2.ts then -1
  else if t2.ts < t1.ts then 1
  else if t1.cl < t2.cl then -1
  else if t2.cl < t1.cl then 1
  else 0

/- ---------- models of the JavaScript string built-ins ---------- -/

/-- Digit character with value `n` (for n < 10). -/
def digitChar (n : Nat) : Char := Char.ofNat (48 + n)

/-- Decimal digit test on a character. -/
def isDigitChar (c : Char) : Bool := 48 ≤ c.toNat && c.toNat ≤ 57

/-- Numeric value of a decimal digit character. -/
def digitVal (c : Char) : Nat := c.toNat - 48

/-- Value of a list of decimal digit characters, most significant first. -/
def digitsToNat (l : List Char) : Nat := l.foldl (fun a c => a * 10 + digitVal c) 0

/-- Fixed-width decimal rendering of `n` on `k` digits, zero padded (models
`n.toString().padStart(k, "0")` for n < 10^k). -/
def padDigits : Nat → Nat → List Char
  | 0, _ => []
  | k + 1, n => digitChar (n / 10 ^ k) :: padDigits k (n % 10 ^ k)

/-- Models the `<` comparison of two JavaScript strings: lexicographic
comparison of the code-unit sequences. -/
def jsStrLt : List Char → List Char → Bool
  | [], [] => false
  | [], _ :: _ => true
  | _ :: _, [] => false
  | a :: as, b :: bs =>
    if a.toNat < b.toNat then true
    else if b.toNat < a.toNat then false
    else jsStrLt as bs

/-- Models `String.prototype.split(sep)` for a one-character separator and no
limit: `jsSplit sep s` is the list of fields of `s` between occurrences of
`sep` (the empty string yields one empty field). -/
def jsSplit (sep : Char) : List Char → List (List Char)
  | [] => [[]]
  | c :: rest =>
    match jsSplit sep rest with
    | [] => [[]]
    | f :: fs => if c = sep then [] :: f :: fs else (c :: f) :: fs

/-- White-space characters skipped by `parseInt` (the ASCII ones; our inputs
are ASCII). -/
def isJsSpace (c : Char) : Bool :=
  c.toNat = 32 || c.toNat = 9 || c.toNat = 10 || c.toNat = 13 || c.toNat = 11 || c.toNat = 12

/-- Optional leading sign of a numeric literal: returns the sign and the rest. -/
def splitSign (l : List Char) : Int × List Char :=
  match l with
  | [] => (1, [])
  | c :: r => if c = '-' then (-1, r) else if c = '+' then (1, r) else (1, c :: r)

/-- Models ECMAScript `parseInt(s, 10)`: skip white space, read an optional
sign, then the longest run of decimal digits; NaN (here `none`) when that run
is empty; any trailing characters after the digits are ignored. -/
def jsParseInt (s : List Char) : Option Int :=
  let t := s.dropWhile isJsSpace
  let p := splitSign t
  let digs := p.2.takeWhile isDigitChar
  if digs.isEmpty then none else some (p.1 * (digitsToNat digs : Int))

/- ---------- proleptic Gregorian calendar arithmetic ---------- -/

/-- Gregorian leap-year rule. -/
def isLeapYear (y : Nat) : Bool := (y % 4 = 0 && y % 100 ≠ 0) || y % 400 = 0

/-- Number of days of year `y`. -/
def daysInYear (y : Nat) : Nat := if isLeapYear y then 366 else 365

/-- Month lengths of a (leap or common) year, January first. -/
def monthsOf (leap : Bool) : List Nat :=
  [31, if leap then 29 else 28, 31, 30, 31, 30, 31, 31, 30, 31, 30, 31]

/-- Length of month `m` (1-based); 0 for an out-of-range month. -/
def monthLen (leap : Bool) (m : Nat) : Nat := (monthsOf leap).getD (m - 1) 0

/-- Days of year `y` that precede month `m` (1-based). -/
def monthDaysBefore (leap : Bool) (m : Nat) : Nat := ((monthsOf leap).take (m - 1)).sum

/-- Total days of the `count` consecutive years starting at year `y`. -/
def yearDaysFrom : Nat → Nat → Nat
  | _, 0 => 0
  | y, c + 1 => daysInYear y + yearDaysFrom (y + 1) c

/-- Days from 1970-01-01 to the first day of year `y` (for y ≥ 1970). -/
def daysUpTo (y : Nat) : Nat := yearDaysFrom 1970 (y - 1970)

/-- Signed day number of civil date (y, m, d) counted from 1970-01-01 (the
`MakeDay` computation of ECMAScript, restricted to in-range month/day). -/
def epochDays (y m d : Nat) : Int :=
  (if 1970 ≤ y then (daysUpTo y : Int) else -(yearDaysFrom y (1970 - y) : Int))
    + (monthDaysBefore (isLeapYear y) m : Int) + (d : Int) - 1

/-- Gregorian leap-year rule on an arbitrary (astronomical) integer year,
the DaysInYear test of ECMAScript; `%` on Int is the Euclidean remainder, so
negative years are handled as the spec's mathematical modulo. -/
def isLeapYearZ (y : Int) : Bool := (y % 4 = 0 && y % 100 ≠ 0) || y % 400 = 0

/-- The DayFromYear formula of ECMAScript: the day number of 1 January of
integer year `y`, counted from 1970-01-01 (floor divisions). -/
def dayFromYear (y : Int) : Int :=
  365 * (y - 1970) + (y - 1969).fdiv 4 - (y - 1901).fdiv 100 + (y - 1601).fdiv 400

/-- The MakeDay computation of ECMAScript on an arbitrary integer year and an
in-range month and day. -/
def epochDaysZ (y : Int) (m d : Nat) : Int :=
  dayFromYear y + (monthDaysBefore (isLeapYearZ y) m : Int) + (d : Int) - 1

/-- Splits a day count over a list of segment lengths: returns the index of
the segment the day falls in and the day offset inside it. -/
def splitList : List Nat → Nat → Nat × Nat
  | [], n => (0, n)
  | d :: ds, n =>
    if n < d then (0, n)
    else
      let p := splitList ds (n - d)
      (p.1 + 1, p.2)

/-- Fuelled search for the year containing day `n` counted from the first day
of year `y`; returns the year and the day-of-year. The fuel only needs to
exceed `n` (each step consumes at least 365 days). -/
def yearSplit : Nat → Nat → Nat → Nat × Nat
  | 0, y, n => (y, n)
  | f + 1, y, n =>
    if n < daysInYear y then (y, n)
    else yearSplit f (y + 1) (n - daysInYear y)

/-- Civil date (year, month, day), months and days 1-based, of day number `n`
counted from 1970-01-01. -/
def civilFromDays (n : Nat) : Nat × Nat × Nat :=
  let p := yearSplit (n + 1) 1970 n
  let q := splitList (monthsOf (isLeapYear p.1)) p.2
  (p.1, q.1 + 1, q.2 + 1)

/-- Models `Date.prototype.toISOString` on an in-range nonnegative time value:
the 24-character string YYYY-MM-DDTHH:mm:ss.sssZ (beyond year 9999 the real
method switches to an expanded form; the library's MAX_EPOCH bound keeps all
serialized values inside this range). -/
def toISOChars (t : Nat) : List Char :=
  let c := civilFromDays (t / 86400000)
  padDigits 4 c.1 ++ '-' :: padDigits 2 c.2.1 ++ '-' :: padDigits 2 c.2.2
    ++ 'T' :: padDigits 2 (t / 3600000 % 24) ++ ':' :: padDigits 2 (t / 60000 % 60)
    ++ ':' :: padDigits 2 (t / 1000 % 60) ++ '.' :: padDigits 3 (t % 1000) ++ [ 'Z']

/- ---------- model of ECMAScript date-time string parsing ---------- -/

/-- Reads exactly `k` decimal digit characters from the front of `l`,
returning their value and the rest. -/
def readDigitsAux : Nat → Nat → List Char → Option (Nat × List Char)
  | 0, acc, l => some (acc, l)
  | _ + 1, _, [] => none
  | k + 1, acc, c :: l =>
    if isDigitChar c then readDigitsAux k (acc * 10 + digitVal c) l else none

/-- Reads a fixed-width `k`-digit decimal field. -/
def readDigits (k : Nat) (l : List Char) : Option (Nat × List Char) :=
  readDigitsAux k 0 l

/-- Consumes one expected character from the front of the input. -/
def expectChar (c : Char) : List Char → Option (List Char)
  | [] => none
  | x :: r => if x = c then some r else none

/-- Parses the time tail HH:mm[:ss[.sss]] of a date-time string. -/
def parseTimeTail (r : List Char) : Option (Nat × Nat × Nat × Nat × List Char) :=
  match readDigits 2 r with
  | none => none
  | some (h, r1) =>
    match expectChar ':' r1 with
    | none => none
    | some r2 =>
      match readDigits 2 r2 with
      | none => none
      | some (mi, r3) =>
        match expectChar ':' r3 with
        | none => some (h, mi, 0, 0, r3)
        | some r4 =>
          match readDigits 2 r4 with
          | none => none
          | some (s, r5) =>
            match expectChar '.' r5 with
            | none => some (h, mi, s, 0, r5)
            | some r6 =>
              match readDigits 3 r6 with
              | none => none
              | some (ms, r7) => some (h, mi, s, ms, r7)

/-- Parses the HH:mm digits of a numeric UTC offset, returning the offset
magnitude in minutes. -/
def parseOffsetHM (rest : List Char) : Option (Nat × List Char) :=
  match readDigits 2 rest with
  | none => none
  | some (oh, r1) =>
    match expectChar ':' r1 with
    | none => none
    | some r2 =>
      match readDigits 2 r2 with
      | none => none
      | some (om, r3) => if oh ≤ 23 ∧ om ≤ 59 then some (oh * 60 + om, r3) else none

/-- Parses the optional UTC-offset tail: empty (no offset: host time zone,
modelled as UTC), `Z`, or a signed HH:mm offset. Returns the offset in
milliseconds and the rest of the input. -/
def parseOffset (r : List Char) : Option (Int × List Char) :=
  match r with
  | [] => some (0, [])
  | _ =>
    match expectChar 'Z' r with
    | some rest => some (0, rest)
    | none =>
      match expectChar '+' r with
      | some rest =>
        match parseOffsetHM rest with
        | none => none
        | some (mins, r3) => some ((mins : Int) * 60000, r3)
      | none =>
        match expectChar '-' r with
        | some rest =>
          match parseOffsetHM rest with
          | none => none
          | some (mins, r3) => some (-(mins : Int) * 60000, r3)
        | none => none

/-- Time value of the given broken-down UTC fields, ms since epoch (an
arbitrary integer year). -/
def dateValue (y : Int) (m d h mi s ms : Nat) : Int :=
  epochDaysZ y m d * 86400000 + ((h * 3600000 + mi * 60000 + s * 1000 + ms : Nat) : Int)

/-- The TimeClip operation of ECMAScript: time values beyond 8.64e15 ms in
magnitude are invalid (NaN, modelled as `none`). -/
def timeClip (v : Int) : Option Int :=
  if v < -8640000000000000 ∨ 8640000000000000 < v then none else some v

/-- Completes parsing after the year field: validates month and day, then
parses the optional time-of-day and offset parts, and clips the final time
value. -/
def finishDate (y : Int) (m d : Nat) (r : List Char) : Option Int :=
  if 1 ≤ m ∧ m ≤ 12 ∧ 1 ≤ d ∧ d ≤ monthLen (isLeapYearZ y) m then
    match r with
    | [] => timeClip (dateValue y m d 0 0 0 0)
    | _ =>
      match expectChar 'T' r with
      | none => none
      | some r1 =>
        match parseTimeTail r1 with
        | none => none
        | some (h, mi, s, ms, r2) =>
          if (h ≤ 23 ∨ (h = 24 ∧ mi = 0 ∧ s = 0 ∧ ms = 0)) ∧ mi ≤ 59 ∧ s ≤ 59 then
            match parseOffset r2 with
            | none => none
            | some (off, r3) =>
              if r3 = [] then timeClip (dateValue y m d h mi s ms - off) else none
          else none
  else none

/-- Parses the month/day fields of a date-time string after the (possibly
expanded, signed) year field. -/
def parseAfterYear (y : Int) (r1 : List Char) : Option Int :=
  match expectChar '-' r1 with
  | none => finishDate y 1 1 r1
  | some r2 =>
    match readDigits 2 r2 with
    | none => none
    | some (m, r3) =>
      match expectChar '-' r3 with
      | none => finishDate y m 1 r3
      | some r4 =>
        match readDigits 2 r4 with
        | none => none
        | some (d, r5) => finishDate y m d r5

/-- Models `new Date(s).getTime()` on the ECMAScript Date Time String Format
(the format the specification names ISO-8601): the year is either YYYY or an
expanded signed six-digit year (a `+` or `-` followed by YYYYYY, `-000000`
disallowed), followed by [-MM[-DD]][THH:mm[:ss[.sss]][Z | (+|-)HH:mm]].
`none` models NaN (an unparseable string or a clipped out-of-range value),
`some v` the parsed millisecond time value. Date-time strings carrying no
offset are interpreted in the host time zone, modelled here as UTC. -/
def jsDateParse (l : List Char) : Option Int :=
  match expectChar '+' l with
  | some r0 =>
    match readDigits 6 r0 with
    | none => none
    | some (y6, r1) => parseAfterYear (y6 : Int) r1
  | none =>
    match expectChar '-' l with
    | some r0 =>
      match readDigits 6 r0 with
      | none => none
      | some (y6, r1) => if y6 = 0 then none else parseAfterYear (-(y6 : Int)) r1
    | none =>
      match readDigits 4 l with
      | none => none
      | some (y, r1) => parseAfterYear (y : Int) r1

/- ---------- serialization and parsing (src/internal.ts, src/hlc.ts) ---------- -/

/-- Source function serialize (src/internal.ts): ISO string, `|`, the
8-digit zero-padded counter, `|`, the node id. -/
def serialize (ts : Int) (cl : Nat) (id : List Char) : List Char :=
  toISOChars ts.toNat ++ '|' :: padDigits LOGICAL_CLOCK_LENGTH cl ++ '|' :: id

/-- Source function serializeHLC (src/hlc.ts): the `toString` of a timestamp,
a pure function of its three fields. -/
def serializeHLC (t : HLCTimestamp) : List Char := serialize t.ts t.cl t.id

/-- Source function parseHLCTimestampStrict (src/hlc.ts): split on `|` into
exactly 3 fields, reject an empty node id, parse and range-check the date
field, parse (with `parseInt`) and range-check the counter field. -/
def parseHLCTimestampStrict (s : List Char) : Except HLCErreur HLCTimestamp :=
  match jsSplit '|' s with
  | [dateStr, clStr, id] =>
    if id.isEmpty then .error (.timestampParsingError s .invalidNodeId)
    else
      match jsDateParse dateStr with
      | none => .error (.timestampParsingError s .invalidTimestamp)
      | some ts =>
        if ts < 0 ∨ ts > (MAX_EPOCH : Int) then .error (.timestampParsingError s .invalidTimestamp)
        else
          match jsParseInt clStr with
          | none => .error (.timestampParsingError s .invalidLogicalCounter)
          | some cl =>
            if cl < 0 ∨ cl > (MAX_LOGICAL_CLOCK : Int) then
              .error (.timestampParsingError s .invalidLogicalCounter)
            else .ok ⟨ts, cl.toNat, id⟩
  | _ => .error (.timestampParsingError s .invalidFormat)

/-- Source function parseHLCTimestamp (src/hlc.ts): the lenient variant,
`null` (here `none`) instead of an error. -/
def parseHLCTimestamp (s : List Char) : Option HLCTimestamp :=
  match parseHLCTimestampStrict s with
  | .ok t => some t
  | .error _ => none

/-- Remote argument of `receive`: a timestamp value or its string encoding. -/
inductive HLCRemote where
  | val (t : HLCTimestamp)
  | str (s : List Char)
deriving DecidableEq, Repr

/-- Source function toHLCTimestamp (src/hlc.ts): strings are strictly
decoded, timestamp values pass through. -/
def toHLCTimestamp : HLCRemote → Except HLCErreur HLCTimestamp
  | .val t => .ok t
  | .str s => parseHLCTimestampStrict s

/- ---------- the clock instance (src/hlc.ts) ---------- -/

/-- Per-instance configuration captured by the createHLC closure: the node id
and the drift bound. The wall-clock source is injected; each operation below
takes the value it returned during that call as the explicit argument `now`. -/
structure HLCConfig where
  nodeId : List Char
  maxDrift : Int
deriving DecidableEq, Repr

/-- Source function createSafeHLCTimestamp (src/hlc.ts): drift check, counter
overflow check, then construction of the timestamp with the instance's own
node id. -/
def createSafeHLCTimestamp (cfg : HLCConfig) (tsNow ts : Int) (cl : Nat) :
    Except HLCErreur HLCTimestamp :=
  let drift := |tsNow - ts|
  if drift > cfg.maxDrift then .error (.clockDriftOverflow cfg.maxDrift drift)
  else if cl ≥ MAX_LOGICAL_CLOCK then .error (.logicalCounterOverflow MAX_LOGICAL_CLOCK cl)
  else .ok ⟨ts, cl, cfg.nodeId⟩

/-- Source function send (src/hlc.ts), on the state `st` of the instance and
the wall-clock reading `now` of this call. -/
def send (cfg : HLCConfig) (now : Int) (st : HLCTimestamp) : Except HLCErreur HLCTimestamp :=
  if now > st.ts then createSafeHLCTimestamp cfg now now 0
  else createSafeHLCTimestamp cfg now st.ts (st.cl + 1)

/-- Source function receive (src/hlc.ts) on an already-decoded remote
timestamp. -/
def receive (cfg : HLCConfig) (now : Int) (st remote : HLCTimestamp) :
    Except HLCErreur HLCTimestamp :=
  let newPt := max now (max st.ts remote.ts)
  if newPt = st.ts ∧ newPt = remote.ts then
    createSafeHLCTimestamp cfg now newPt (max st.cl remote.cl + 1)
  else if newPt = st.ts then createSafeHLCTimestamp cfg now newPt (st.cl + 1)
  else if newPt = remote.ts then createSafeHLCTimestamp cfg now newPt (remote.cl + 1)
  else createSafeHLCTimestamp cfg now newPt 0

/-- Source function receive including the strict decoding of a string
argument. -/
def receiveAny (cfg : HLCConfig) (now : Int) (st : HLCTimestamp) (r : HLCRemote) :
    Except HLCErreur HLCTimestamp :=
  match toHLCTimestamp r with
  | .error e => .error e
  | .ok remote => receive cfg now st remote

/-- One send() call on the instance's state cell: the assignment
`state = createSafeHLCTimestamp(...)` runs only when no error is thrown, so
the cell keeps its old value on failure. Returns (call result, new cell). -/
def sendCall (cfg : HLCConfig) (now : Int) (st : HLCTimestamp) :
    Except HLCErreur HLCTimestamp × HLCTimestamp :=
  match send cfg now st with
  | .ok t => (.ok t, t)
  | .error e => (.error e, st)

/-- One receive() call on the instance's state cell, remote given as a value
or a string; as in the source, a decode or check failure leaves the cell
unchanged. -/
def receiveCall (cfg : HLCConfig) (now : Int) (st : HLCTimestamp) (r : HLCRemote) :
    Except HLCErreur HLCTimestamp × HLCTimestamp :=
  match receiveAny cfg now st r with
  | .ok t => (.ok t, t)
  | .error e => (.error e, st)

/-- One call of the public API, tagged with the wall-clock value the injected
source returned during that call. -/
inductive HLCEvent where
  | send (now : Int)
  | receive (now : Int) (remote : HLCRemote)
deriving DecidableEq, Repr

/-- The result of one event on a given state. -/
def step (cfg : HLCConfig) (st : HLCTimestamp) : HLCEvent → Except HLCErreur HLCTimestamp
  | .send now => send cfg now st
  | .receive now r => receiveAny cfg now st r

/-- Runs a sequence of calls from state `st`; succeeds with the list of
returned timestamps when every call succeeds (each result becoming the next
state), and fails at the first failing call. -/
def run (cfg : HLCConfig) (st : HLCTimestamp) : List HLCEvent → Except HLCErreur (List HLCTimestamp)
  | [] => .ok []
  | e :: es =>
    match step cfg st e with
    | .error err => .error err
    | .ok t =>
      match run cfg t es with
      | .error err => .error err
      | .ok ts => .ok (t :: ts)

end HLC

namespace HLC


/- ---------- helper lemmas on the clock algebra ---------- -/

theorem createSafe_ok_iff (cfg : HLCConfig) (tsNow ts : Int) (cl : Nat) (t : HLCTimestamp) :
    createSafeHLCTimestamp cfg tsNow ts cl = .ok t ↔
      |tsNow - ts| ≤ cfg.maxDrift ∧ cl < MAX_LOGICAL_CLOCK ∧ t = ⟨ts, cl, cfg.nodeId⟩ := by
  by_cases h1 : |tsNow - ts| > cfg.maxDrift
  · simp only [createSafeHLCTimestamp, if_pos h1]
    constructor
    · intro h; cases h
    · rintro ⟨h, -⟩; omega
  · by_cases h2 : cl ≥ MAX_LOGICAL_CLOCK
    · simp only [createSafeHLCTimestamp, if_neg h1, if_pos h2]
      constructor
      · intro h; cases h
      · rintro ⟨-, h, -⟩; omega
    · simp only [createSafeHLCTimestamp, if_neg h1, if_neg h2]
      constructor
      · intro h
        cases h
        exact ⟨by omega, by omega, rfl⟩
      · rintro ⟨-, -, rfl⟩; rfl

theorem cmp_neg_iff (a b : HLCTimestamp) :
    compareHLCTimestamps a b = -1 ↔ (a.ts < b.ts ∨ (a.ts = b.ts ∧ a.cl < b.cl)) := by
  constructor
  · intro h
    unfold compareHLCTimestamps at h
    split_ifs at h <;> omega
  · intro h
    unfold compareHLCTimestamps
    rcases h with h | ⟨he, hc⟩
    · rw [if_pos h]
    · rw [if_neg (by omega), if_neg (by omega), if_pos hc]

theorem cmp_one_iff (a b : HLCTimestamp) :
    compareHLCTimestamps a b = 1 ↔ (b.ts < a.ts ∨ (a.ts = b.ts ∧ b.cl < a.cl)) := by
  constructor
  · intro h
    unfold compareHLCTimestamps at h
    split_ifs at h <;> omega
  · intro h
    unfold compareHLCTimestamps
    rcases h with h | ⟨he, hc⟩
    · rw [if_neg (by omega), if_pos h]
    · rw [if_neg (by omega), if_neg (by omega), if_neg (by omega), if_pos hc]

theorem cmp_zero_iff (a b : HLCTimestamp) :
    compareHLCTimestamps a b = 0 ↔ (a.ts = b.ts ∧ a.cl = b.cl) := by
  constructor
  · intro h
    unfold compareHLCTimestamps at h
    split_ifs at h <;> omega
  · intro h
    unfold compareHLCTimestamps
    rw [if_neg (by omega), if_neg (by omega), if_neg (by omega), if_neg (by omega)]

theorem cmp_trans_neg {a b c : HLCTimestamp} (h1 : compareHLCTimestamps a b = -1)
    (h2 : compareHLCTimestamps b c = -1) : compareHLCTimestamps a c = -1 := by
  rw [cmp_neg_iff] at h1 h2 ⊢
  rcases h1 with h1 | ⟨h1e, h1c⟩ <;> rcases h2 with h2 | ⟨h2e, h2c⟩
  · exact Or.inl (by omega)
  · exact Or.inl (by omega)
  · exact Or.inl (by omega)
  · exact Or.inr ⟨by omega, by omega⟩

theorem receive_lt (cfg : HLCConfig) (now : Int) (st remote t : HLCTimestamp)
    (h : receive cfg now st remote = .ok t) : compareHLCTimestamps st t = -1 := by
  simp only [receive] at h
  have hle : st.ts ≤ max now (max st.ts remote.ts) := le_max_of_le_right (le_max_left _ _)
  rw [cmp_neg_iff]
  split_ifs at h <;> rw [createSafe_ok_iff] at h <;>
    obtain ⟨-, -, rfl⟩ := h <;> dsimp only <;> omega

theorem send_lt (cfg : HLCConfig) (now : Int) (st t : HLCTimestamp)
    (h : send cfg now st = .ok t) : compareHLCTimestamps st t = -1 := by
  simp only [send] at h
  rw [cmp_neg_iff]
  split_ifs at h with hgt <;> rw [createSafe_ok_iff] at h <;>
    obtain ⟨-, -, rfl⟩ := h <;> dsimp only <;> omega

theorem step_lt (cfg : HLCConfig) (st : HLCTimestamp) (e : HLCEvent) (t : HLCTimestamp)
    (h : step cfg st e = .ok t) : compareHLCTimestamps st t = -1 := by
  cases e with
  | send now => exact send_lt cfg now st t h
  | receive now r =>
    simp only [step, receiveAny] at h
    split at h
    · cases h
    · rename_i remote hr
      exact receive_lt cfg now st remote t h

theorem run_all_lt (cfg : HLCConfig) (st : HLCTimestamp) (es : List HLCEvent)
    (outs : List HLCTimestamp) (h : run cfg st es = .ok outs) :
    ∀ b ∈ outs, compareHLCTimestamps st b = -1 := by
  induction es generalizing st outs with
  | nil =>
    simp only [run] at h
    cases h
    intro b hb; cases hb
  | cons e es ih =>
    simp only [run] at h
    split at h
    · cases h
    · rename_i t hs
      split at h
      · cases h
      · rename_i ts hr
        cases h
        intro b hb
        rcases List.mem_cons.mp hb with rfl | hb
        · exact step_lt cfg st e b hs
        · exact cmp_trans_neg (step_lt cfg st e t hs) (ih t ts hr b hb)

theorem run_pairwise (cfg : HLCConfig) (st : HLCTimestamp) (es : List HLCEvent)
    (outs : List HLCTimestamp) (h : run cfg st es = .ok outs) :
    List.Pairwise (fun a b => compareHLCTimestamps a b = -1) outs := by
  induction es generalizing st outs with
  | nil => simp only [run] at h; cases h; exact List.Pairwise.nil
  | cons e es ih =>
    simp only [run] at h
    split at h
    · cases h
    · rename_i t hs
      split at h
      · cases h
      · rename_i ts hr
        cases h
        exact List.pairwise_cons.mpr ⟨run_all_lt cfg t es ts hr, ih t ts hr⟩

/- ---------- claim theorems on the clock algebra ---------- -/

/-- C1: every successful receive(remote) call commits and returns the
timestamp whose physical time is max(now, state.ts, remote.ts), whose
counter follows the four-way case split of the HLC merge rule in its stated
precedence, and whose node id is the instance's own, never the remote's. -/
theorem C1_receive_merge_rule (cfg : HLCConfig) (now : Int) (st rem t : HLCTimestamp)
    (h : (receiveCall cfg now st (.val rem)).1 = .ok t) :
    t.ts = max now (max st.ts rem.ts) ∧
    t.cl = (if st.ts = max now (max st.ts rem.ts) ∧ rem.ts = max now (max st.ts rem.ts) then
              max st.cl rem.cl + 1
            else if st.ts = max now (max st.ts rem.ts) then st.cl + 1
            else if rem.ts = max now (max st.ts rem.ts) then rem.cl + 1
            else 0) ∧
    t.id = cfg.nodeId ∧ (receiveCall cfg now st (.val rem)).2 = t := by
  have hrecv : receive cfg now st rem = .ok t := by
    simp only [receiveCall, receiveAny, toHLCTimestamp] at h
    cases hx : receive cfg now st rem <;> rw [hx] at h <;> simp_all
  have hcell : (receiveCall cfg now st (.val rem)).2 = t := by
    simp only [receiveCall, receiveAny, toHLCTimestamp, hrecv]
  simp only [receive] at hrecv
  split_ifs at hrecv with h1 h2 h3 <;> rw [createSafe_ok_iff] at hrecv <;>
    obtain ⟨-, -, rfl⟩ := hrecv <;> dsimp only <;> refine ⟨rfl, ?_, rfl, hcell⟩
  · rw [if_pos ⟨h1.1.symm, h1.2.symm⟩]
  · rw [if_neg (fun hc => h1 ⟨hc.1.symm, hc.2.symm⟩), if_pos h2.symm]
  · rw [if_neg (fun hc => h1 ⟨hc.1.symm, hc.2.symm⟩), if_neg (fun hc => h2 hc.symm),
      if_pos h3.symm]
  · rw [if_neg (fun hc => h1 ⟨hc.1.symm, hc.2.symm⟩), if_neg (fun hc => h2 hc.symm),
      if_neg (fun hc => h3 hc.symm)]

theorem C1_witness :
    (receiveCall ⟨[ 'n'], 300000⟩ 1000 ⟨1000, 2, [ 'n']⟩ (.val ⟨1000, 5, [ 'm']⟩)).2 =
      (⟨1000, 6, [ 'n']⟩ : HLCTimestamp) :=
  (C1_receive_merge_rule ⟨[ 'n'], 300000⟩ 1000 ⟨1000, 2, [ 'n']⟩ ⟨1000, 5, [ 'm']⟩
    ⟨1000, 6, [ 'n']⟩ rfl).2.2.2

/-- C2: every successful send() call returns (now, 0) when the wall clock
strictly advanced past the state's physical time, and
(state.ts, state.cl + 1) otherwise (stalled or regressed wall clock), always
carrying the instance's own node id; the returned timestamp becomes the new
state. -/
theorem C2_send_rule (cfg : HLCConfig) (now : Int) (st t : HLCTimestamp)
    (h : (sendCall cfg now st).1 = .ok t) :
    (now > st.ts → t = ⟨now, 0, cfg.nodeId⟩) ∧
    (¬ now > st.ts → t = ⟨st.ts, st.cl + 1, cfg.nodeId⟩) ∧
    (sendCall cfg now st).2 = t := by
  have hsend : send cfg now st = .ok t := by
    simp only [sendCall] at h
    cases hx : send cfg now st <;> rw [hx] at h <;> simp_all
  have hcell : (sendCall cfg now st).2 = t := by
    simp only [sendCall, hsend]
  simp only [send] at hsend
  split_ifs at hsend with hgt <;> rw [createSafe_ok_iff] at hsend <;>
    obtain ⟨-, -, rfl⟩ := hsend
  · exact ⟨fun _ => rfl, fun hc => absurd hgt hc, hcell⟩
  · exact ⟨fun hc => absurd hc hgt, fun _ => rfl, hcell⟩

theorem C2_witness :
    (sendCall ⟨[ 'n'], 300000⟩ 2000 ⟨1000, 3, [ 'n']⟩).2 = (⟨2000, 0, [ 'n']⟩ : HLCTimestamp) :=
  (C2_send_rule ⟨[ 'n'], 300000⟩ 2000 ⟨1000, 3, [ 'n']⟩ ⟨2000, 0, [ 'n']⟩ rfl).2.2

/-- C4: the shared safety check fails with ClockDriftOverflow carrying the
configured bound and the observed drift exactly when |now - candidate ts|
exceeds maxDrift; once the drift check passes it fails with
LogicalCounterOverflow exactly when the candidate counter is not strictly
below MAX_LOGICAL_CLOCK; and it succeeds exactly when both checks pass. -/
theorem C4_safety_check (cfg : HLCConfig) (tsNow ts : Int) (cl : Nat) :
    (createSafeHLCTimestamp cfg tsNow ts cl =
        .error (.clockDriftOverflow cfg.maxDrift |tsNow - ts|) ↔
      |tsNow - ts| > cfg.maxDrift) ∧
    (|tsNow - ts| ≤ cfg.maxDrift →
      (createSafeHLCTimestamp cfg tsNow ts cl =
          .error (.logicalCounterOverflow MAX_LOGICAL_CLOCK cl) ↔
        ¬ cl < MAX_LOGICAL_CLOCK)) ∧
    ((∃ t, createSafeHLCTimestamp cfg tsNow ts cl = .ok t) ↔
      |tsNow - ts| ≤ cfg.maxDrift ∧ cl < MAX_LOGICAL_CLOCK) := by
  by_cases h1 : |tsNow - ts| > cfg.maxDrift
  · simp only [createSafeHLCTimestamp, if_pos h1]
    refine ⟨by simp [h1], fun hc => absurd h1 (by omega), ?_⟩
    constructor
    · rintro ⟨t, ht⟩; cases ht
    · rintro ⟨hc, -⟩; omega
  · by_cases h2 : cl ≥ MAX_LOGICAL_CLOCK
    · simp only [createSafeHLCTimestamp, if_neg h1, if_pos h2]
      refine ⟨by simp; omega, fun _ => by simp; omega, ?_⟩
      constructor
      · rintro ⟨t, ht⟩; cases ht
      · rintro ⟨-, hc⟩; omega
    · simp only [createSafeHLCTimestamp, if_neg h1, if_neg h2]
      refine ⟨by simp; omega, fun _ => by simp; omega, ?_⟩
      constructor
      · intro; exact ⟨by omega, by omega⟩
      · intro; exact ⟨⟨ts, cl, cfg.nodeId⟩, rfl⟩

theorem C4_witness :
    (createSafeHLCTimestamp ⟨[ 'n'], 100⟩ 0 0 99999999 =
        .error (.logicalCounterOverflow MAX_LOGICAL_CLOCK 99999999) ↔
      ¬ 99999999 < MAX_LOGICAL_CLOCK) :=
  (C4_safety_check ⟨[ 'n'], 100⟩ 0 0 99999999).2.1 (by decide)

/-- C5: a failing send() or receive() call (drift check, counter overflow, or
strict decoding of a string remote) leaves the instance's state cell at its
last good value, so any subsequent call behaves exactly as if the failed call
had never happened. -/
theorem C5_failure_leaves_state (cfg : HLCConfig) (now : Int) (st : HLCTimestamp) :
    (∀ e, (sendCall cfg now st).1 = .error e → (sendCall cfg now st).2 = st) ∧
    (∀ r e, (receiveCall cfg now st r).1 = .error e → (receiveCall cfg now st r).2 = st) ∧
    (∀ e e2, (sendCall cfg now st).1 = .error e →
      step cfg (sendCall cfg now st).2 e2 = step cfg st e2) ∧
    (∀ r e e2, (receiveCall cfg now st r).1 = .error e →
      step cfg (receiveCall cfg now st r).2 e2 = step cfg st e2) := by
  have hs : ∀ e, (sendCall cfg now st).1 = .error e → (sendCall cfg now st).2 = st := by
    intro e he
    simp only [sendCall] at he ⊢
    cases hx : send cfg now st <;> (rw [hx] at he; try simp_all)
  have hr : ∀ r e, (receiveCall cfg now st r).1 = .error e → (receiveCall cfg now st r).2 = st := by
    intro r e he
    simp only [receiveCall] at he ⊢
    cases hx : receiveAny cfg now st r <;> (rw [hx] at he; try simp_all)
  exact ⟨hs, hr, fun e e2 he => by rw [hs e he], fun r e e2 he => by rw [hr r e he]⟩

theorem C5_witness :
    (sendCall ⟨[ 'n'], 100⟩ 0 ⟨2000, 0, [ 'n']⟩).2 = (⟨2000, 0, [ 'n']⟩ : HLCTimestamp) :=
  (C5_failure_leaves_state ⟨[ 'n'], 100⟩ 0 ⟨2000, 0, [ 'n']⟩).1
    (.clockDriftOverflow 100 2000) rfl

/-- C9: compareHLCTimestamps is the total order on the (physicalTime,
logicalCounter) pair that ignores nodeId: it returns -1 exactly below, 1
exactly above, and 0 exactly when both components agree, whatever the node
ids are. -/
theorem C9_compare_total_order (a b : HLCTimestamp) :
    (compareHLCTimestamps a b = -1 ↔ (a.ts < b.ts ∨ (a.ts = b.ts ∧ a.cl < b.cl))) ∧
    (compareHLCTimestamps a b = 1 ↔ (b.ts < a.ts ∨ (a.ts = b.ts ∧ b.cl < a.cl))) ∧
    (compareHLCTimestamps a b = 0 ↔ (a.ts = b.ts ∧ a.cl = b.cl)) :=
  ⟨cmp_neg_iff a b, cmp_one_iff a b, cmp_zero_iff a b⟩

/-- C3: over any successful sequence of send/receive calls on one instance,
with any behaviour of the injected wall clock, every returned timestamp is
greater than or equal to every earlier one under compareHLCTimestamps. -/
theorem C3_monotonicity (cfg : HLCConfig) (st : HLCTimestamp) (es : List HLCEvent)
    (outs : List HLCTimestamp) (h : run cfg st es = .ok outs) (i j : Fin outs.length)
    (hij : i ≤ j) : compareHLCTimestamps (outs.get i) (outs.get j) ≤ 0 := by
  rcases eq_or_lt_of_le hij with rfl | hlt
  · have := (cmp_zero_iff (outs.get i) (outs.get i)).mpr ⟨rfl, rfl⟩
    omega
  · have := (List.pairwise_iff_get.mp (run_pairwise cfg st es outs h)) i j hlt
    omega

theorem C3_witness :
    compareHLCTimestamps
      (([⟨1, 0, [ 'n']⟩, ⟨1, 1, [ 'n']⟩] : List HLCTimestamp).get ⟨0, by decide⟩)
      (([⟨1, 0, [ 'n']⟩, ⟨1, 1, [ 'n']⟩] : List HLCTimestamp).get ⟨1, by decide⟩) ≤ 0 :=
  C3_monotonicity ⟨[ 'n'], 300000⟩ ⟨0, 0, [ 'n']⟩ [.send 1, .send 1]
    [⟨1, 0, [ 'n']⟩, ⟨1, 1, [ 'n']⟩] rfl ⟨0, by decide⟩ ⟨1, by decide⟩ (by decide)

/-- C10: every successful call returns a timestamp strictly above the
previous state under compareHLCTimestamps, and hence over any successful run
the returned timestamps are pairwise strictly increasing — no two are ever
Compare-equal. -/
theorem C10_strict_monotonicity :
    (∀ (cfg : HLCConfig) (st : HLCTimestamp) (e : HLCEvent) (t : HLCTimestamp),
        step cfg st e = .ok t → compareHLCTimestamps st t = -1) ∧
    (∀ (cfg : HLCConfig) (st : HLCTimestamp) (es : List HLCEvent) (outs : List HLCTimestamp),
        run cfg st es = .ok outs → ∀ (i j : Fin outs.length), i < j →
          compareHLCTimestamps (outs.get i) (outs.get j) = -1) :=
  ⟨step_lt, fun cfg st es outs h i j hij =>
    (List.pairwise_iff_get.mp (run_pairwise cfg st es outs h)) i j hij⟩

theorem C10_witness :
    compareHLCTimestamps (⟨0, 0, [ 'n']⟩ : HLCTimestamp) (⟨1, 0, [ 'n']⟩ : HLCTimestamp) = -1 :=
  C10_strict_monotonicity.1 ⟨[ 'n'], 300000⟩ ⟨0, 0, [ 'n']⟩ (.send 1) ⟨1, 0, [ 'n']⟩ rfl

/- ---------- helper lemmas on characters and digit strings ---------- -/

theorem char_eq_of_toNat_eq {c d : Char} (h : c.toNat = d.toNat) : c = d := by
  rw [← Char.ofNat_toNat c, ← Char.ofNat_toNat d, h]

theorem digitChar_toNat {d : Nat} (h : d < 10) : (digitChar d).toNat = 48 + d := by
  interval_cases d <;> decide

theorem isDigitChar_digitChar {d : Nat} (h : d < 10) : isDigitChar (digitChar d) = true := by
  simp only [isDigitChar, digitChar_toNat h, Bool.and_eq_true, decide_eq_true_eq]
  omega

theorem digitVal_digitChar {d : Nat} (h : d < 10) : digitVal (digitChar d) = d := by
  simp only [digitVal, digitChar_toNat h]
  omega

theorem padDigits_length (k n : Nat) : (padDigits k n).length = k := by
  induction k generalizing n with
  | zero => rfl
  | succ k ih => simp [padDigits, ih]

theorem padDigits_all_digits {k n : Nat} (h : n < 10 ^ k) :
    ∀ c ∈ padDigits k n, isDigitChar c = true := by
  induction k generalizing n with
  | zero => intro c hc; cases hc
  | succ k ih =>
    intro c hc
    rcases List.mem_cons.mp hc with rfl | hc
    · exact isDigitChar_digitChar (Nat.div_lt_of_lt_mul (by rw [pow_succ] at h; omega))
    · exact ih (Nat.mod_lt _ (Nat.pos_pow_of_pos k (by omega))) c hc

theorem foldl_padDigits (k n a : Nat) (h : n < 10 ^ k) :
    (padDigits k n).foldl (fun a c => a * 10 + digitVal c) a = a * 10 ^ k + n := by
  induction k generalizing n a with
  | zero =>
    have hn : n = 0 := by simpa using h
    subst hn
    simp [padDigits]
  | succ k ih =>
    have hd : n / 10 ^ k < 10 := Nat.div_lt_of_lt_mul (by rw [pow_succ] at h; omega)
    have hm : n % 10 ^ k < 10 ^ k := Nat.mod_lt _ (Nat.pos_pow_of_pos k (by omega))
    simp only [padDigits, List.foldl_cons, digitVal_digitChar hd, ih _ _ hm]
    have hdm := Nat.div_add_mod n (10 ^ k)
    set q := n / 10 ^ k
    set r := n % 10 ^ k
    rw [pow_succ, ← hdm]
    ring

theorem digitsToNat_padDigits {k n : Nat} (h : n < 10 ^ k) :
    digitsToNat (padDigits k n) = n := by
  have := foldl_padDigits k n 0 h
  simpa [digitsToNat] using this

theorem isDigitChar_toNat_le {c : Char} (h : isDigitChar c = true) : c.toNat ≤ 57 := by
  simp only [isDigitChar, Bool.and_eq_true, decide_eq_true_eq] at h
  omega

theorem isDigitChar_toNat_ge {c : Char} (h : isDigitChar c = true) : 48 ≤ c.toNat := by
  simp only [isDigitChar, Bool.and_eq_true, decide_eq_true_eq] at h
  omega

theorem pipe_notMem_padDigits {k n : Nat} (h : n < 10 ^ k) : '|' ∉ padDigits k n := by
  intro hc
  have h1 := isDigitChar_toNat_le (padDigits_all_digits h _ hc)
  have h2 : ('|' : Char).toNat = 124 := by decide
  omega

theorem readDigitsAux_padDigits (k n acc : Nat) (rest : List Char) (h : n < 10 ^ k) :
    readDigitsAux k acc (padDigits k n ++ rest) = some (acc * 10 ^ k + n, rest) := by
  induction k generalizing n acc with
  | zero =>
    have hn : n = 0 := by simpa using h
    subst hn
    simp [padDigits, readDigitsAux]
  | succ k ih =>
    have hd : n / 10 ^ k < 10 := Nat.div_lt_of_lt_mul (by rw [pow_succ] at h; omega)
    have hm : n % 10 ^ k < 10 ^ k := Nat.mod_lt _ (Nat.pos_pow_of_pos k (by omega))
    show readDigitsAux (k + 1) acc ((digitChar (n / 10 ^ k) :: padDigits k (n % 10 ^ k)) ++ rest)
      = some (acc * 10 ^ (k + 1) + n, rest)
    rw [List.cons_append,
      show readDigitsAux (k + 1) acc (digitChar (n / 10 ^ k) :: (padDigits k (n % 10 ^ k) ++ rest))
        = if isDigitChar (digitChar (n / 10 ^ k)) then
            readDigitsAux k (acc * 10 + digitVal (digitChar (n / 10 ^ k)))
              (padDigits k (n % 10 ^ k) ++ rest)
          else none from rfl,
      isDigitChar_digitChar hd, if_pos rfl, digitVal_digitChar hd, ih _ _ hm]
    have heq : (acc * 10 + n / 10 ^ k) * 10 ^ k + n % 10 ^ k = acc * 10 ^ (k + 1) + n := by
      have hdm := Nat.div_add_mod n (10 ^ k)
      set q := n / 10 ^ k
      set r := n % 10 ^ k
      rw [pow_succ, ← hdm]
      ring
    rw [heq]

theorem readDigits_padDigits {k n : Nat} (rest : List Char) (h : n < 10 ^ k) :
    readDigits k (padDigits k n ++ rest) = some (n, rest) := by
  rw [readDigits, readDigitsAux_padDigits k n 0 rest h]
  simp

theorem jsSplit_cons (sep c : Char) (rest : List Char) :
    jsSplit sep (c :: rest) =
      match jsSplit sep rest with
      | [] => [[]]
      | f :: fs => if c = sep then [] :: f :: fs else (c :: f) :: fs := rfl

theorem jsSplit_ne_nil (sep : Char) (l : List Char) : jsSplit sep l ≠ [] := by
  cases l with
  | nil => simp [jsSplit]
  | cons c rest =>
    rw [jsSplit_cons]
    cases jsSplit sep rest with
    | nil => simp
    | cons f fs =>
      by_cases hc : c = sep <;> simp [hc]

theorem jsSplit_sepFree {sep : Char} {a : List Char} (h : sep ∉ a) :
    jsSplit sep a = [a] := by
  induction a with
  | nil => rfl
  | cons c rest ih =>
    have hc : c ≠ sep := fun hcc => h (hcc ▸ List.mem_cons_self c rest)
    have hr : sep ∉ rest := fun hm => h (List.mem_cons_of_mem c hm)
    rw [jsSplit_cons, ih hr]
    simp [hc]

theorem jsSplit_append {sep : Char} {a : List Char} (r : List Char) (h : sep ∉ a) :
    jsSplit sep (a ++ sep :: r) = a :: jsSplit sep r := by
  induction a with
  | nil =>
    rw [List.nil_append, jsSplit_cons]
    cases hs : jsSplit sep r with
    | nil => exact absurd hs (jsSplit_ne_nil sep r)
    | cons f fs => simp
  | cons c rest ih =>
    have hc : c ≠ sep := fun hcc => h (hcc ▸ List.mem_cons_self c rest)
    have hr : sep ∉ rest := fun hm => h (List.mem_cons_of_mem c hm)
    rw [List.cons_append, jsSplit_cons, ih hr]
    simp [hc]

theorem takeWhile_all {p : Char → Bool} {l : List Char} (h : ∀ c ∈ l, p c = true) :
    l.takeWhile p = l := by
  induction l with
  | nil => rfl
  | cons c rest ih =>
    rw [List.takeWhile_cons, h c (List.mem_cons_self c rest)]
    simp [ih (fun x hx => h x (List.mem_cons_of_mem c hx))]

theorem isJsSpace_digitChar {d : Nat} (h : d < 10) : isJsSpace (digitChar d) = false := by
  simp only [isJsSpace, digitChar_toNat h, Bool.or_eq_false_iff, decide_eq_false_iff_not]
  omega

theorem digitChar_ne {d : Nat} (h : d < 10) {c : Char} (hc : ¬ (48 ≤ c.toNat ∧ c.toNat ≤ 57)) :
    digitChar d ≠ c := by
  intro he
  have := digitChar_toNat h
  rw [he] at this
  omega

theorem jsParseInt_padDigits {k n : Nat} (hk : 0 < k) (h : n < 10 ^ k) :
    jsParseInt (padDigits k n) = some (n : Int) := by
  obtain ⟨j, rfl⟩ : ∃ j, k = j + 1 := ⟨k - 1, by omega⟩
  have hd : n / 10 ^ j < 10 := Nat.div_lt_of_lt_mul (by rw [pow_succ] at h; omega)
  rw [jsParseInt]
  rw [show padDigits (j + 1) n = digitChar (n / 10 ^ j) :: padDigits j (n % 10 ^ j) from rfl]
  rw [List.dropWhile_cons, isJsSpace_digitChar hd]
  simp only [Bool.false_eq_true, if_false]
  rw [show splitSign (digitChar (n / 10 ^ j) :: padDigits j (n % 10 ^ j)) =
    if digitChar (n / 10 ^ j) = '-' then ((-1 : Int), padDigits j (n % 10 ^ j))
    else if digitChar (n / 10 ^ j) = '+' then ((1 : Int), padDigits j (n % 10 ^ j))
    else ((1 : Int), digitChar (n / 10 ^ j) :: padDigits j (n % 10 ^ j)) from rfl]
  rw [if_neg (digitChar_ne hd (by decide)), if_neg (digitChar_ne hd (by decide))]
  rw [show (digitChar (n / 10 ^ j) :: padDigits j (n % 10 ^ j)) = padDigits (j + 1) n from rfl]
  rw [takeWhile_all (padDigits_all_digits h)]
  have hne : padDigits (j + 1) n ≠ [] := by
    rw [show padDigits (j + 1) n = digitChar (n / 10 ^ j) :: padDigits j (n % 10 ^ j) from rfl]
    simp
  rw [if_neg (by simpa [List.isEmpty_iff] using hne)]
  rw [digitsToNat_padDigits h]
  simp

/- ---------- helper lemmas on the calendar arithmetic ---------- -/

theorem daysInYear_ge (y : Nat) : 365 ≤ daysInYear y := by
  unfold daysInYear
  split <;> omega

theorem yearDaysFrom_add (c1 c2 y : Nat) :
    yearDaysFrom y (c1 + c2) = yearDaysFrom y c1 + yearDaysFrom (y + c1) c2 := by
  induction c1 generalizing y with
  | zero => simp [yearDaysFrom]
  | succ c1 ih =>
    have hstep : yearDaysFrom y (c1 + 1 + c2) = daysInYear y + yearDaysFrom (y + 1) (c1 + c2) := by
      rw [show c1 + 1 + c2 = (c1 + c2) + 1 from by omega]
      rfl
    rw [hstep, ih (y + 1),
      show yearDaysFrom y (c1 + 1) = daysInYear y + yearDaysFrom (y + 1) c1 from rfl,
      show y + (c1 + 1) = y + 1 + c1 from by omega]
    omega

theorem isLeapYear_add_400 (y : Nat) : isLeapYear (y + 400) = isLeapYear y := by
  have h4 : (y + 400) % 4 = y % 4 := by omega
  have h100 : (y + 400) % 100 = y % 100 := by omega
  have h400 : (y + 400) % 400 = y % 400 := by omega
  simp [isLeapYear, h4, h100, h400]

theorem daysInYear_add_400 (y : Nat) : daysInYear (y + 400) = daysInYear y := by
  simp [daysInYear, isLeapYear_add_400]

theorem yearDaysFrom_shift_400 (c y : Nat) : yearDaysFrom (y + 400) c = yearDaysFrom y c := by
  induction c generalizing y with
  | zero => rfl
  | succ c ih =>
    show daysInYear (y + 400) + yearDaysFrom (y + 400 + 1) c =
      daysInYear y + yearDaysFrom (y + 1) c
    rw [daysInYear_add_400, show y + 400 + 1 = y + 1 + 400 from by omega, ih (y + 1)]

set_option maxRecDepth 8000 in
theorem yearDaysFrom_2000_400 : yearDaysFrom 2000 400 = 146097 := by decide

theorem yearDaysFrom_2000_blocks (b : Nat) : yearDaysFrom 2000 (400 * b) = 146097 * b := by
  induction b with
  | zero => rfl
  | succ b ih =>
    rw [show 400 * (b + 1) = 400 + 400 * b from by omega, yearDaysFrom_add,
      show 2000 + 400 = 2400 from rfl,
      show yearDaysFrom 2400 (400 * b) = yearDaysFrom 2000 (400 * b) from yearDaysFrom_shift_400 _ 2000,
      yearDaysFrom_2000_400, ih]
    omega

theorem daysUpTo_10000 : daysUpTo 10000 = 2932897 := by
  have h1 : daysUpTo 10000 = yearDaysFrom 1970 (30 + 8000) := rfl
  rw [h1, yearDaysFrom_add, show (1970 + 30 : Nat) = 2000 from rfl,
    show (8000 : Nat) = 400 * 20 from rfl, yearDaysFrom_2000_blocks,
    show yearDaysFrom 1970 30 = 10957 from by decide]

theorem daysUpTo_succ {y : Nat} (h : 1970 ≤ y) :
    daysUpTo (y + 1) = daysUpTo y + daysInYear y := by
  unfold daysUpTo
  rw [show y + 1 - 1970 = (y - 1970) + 1 from by omega, yearDaysFrom_add,
    show 1970 + (y - 1970) = y from by omega]
  rfl

theorem daysUpTo_mono {y1 y2 : Nat} (h1 : 1970 ≤ y1) (h : y1 ≤ y2) :
    daysUpTo y1 ≤ daysUpTo y2 := by
  unfold daysUpTo
  rw [show y2 - 1970 = (y1 - 1970) + (y2 - y1) from by omega, yearDaysFrom_add]
  omega

theorem yearSplit_spec (f : Nat) : ∀ n y, n < f →
    (yearSplit f y n).2 < daysInYear (yearSplit f y n).1 ∧
    y ≤ (yearSplit f y n).1 ∧
    yearDaysFrom y ((yearSplit f y n).1 - y) + (yearSplit f y n).2 = n := by
  induction f with
  | zero => intro n y hn; omega
  | succ f ih =>
    intro n y hn
    by_cases hlt : n < daysInYear y
    · rw [show yearSplit (f + 1) y n = (y, n) from by rw [yearSplit, if_pos hlt]]
      exact ⟨hlt, le_refl y, by simp [yearDaysFrom]⟩
    · have hge : daysInYear y ≤ n := by omega
      have hd := daysInYear_ge y
      rw [show yearSplit (f + 1) y n = yearSplit f (y + 1) (n - daysInYear y) from by
        rw [yearSplit, if_neg hlt]]
      obtain ⟨ha, hb, hc⟩ := ih (n - daysInYear y) (y + 1) (by omega)
      refine ⟨ha, by omega, ?_⟩
      rw [show (yearSplit f (y + 1) (n - daysInYear y)).1 - y =
        ((yearSplit f (y + 1) (n - daysInYear y)).1 - (y + 1)) + 1 from by omega]
      rw [show yearDaysFrom y (((yearSplit f (y + 1) (n - daysInYear y)).1 - (y + 1)) + 1) =
        yearDaysFrom y 1 + yearDaysFrom (y + 1)
          ((yearSplit f (y + 1) (n - daysInYear y)).1 - (y + 1)) from by
        rw [← yearDaysFrom_add]; ring_nf]
      have hy1 : yearDaysFrom y 1 = daysInYear y := by simp [yearDaysFrom]
      omega

theorem splitList_spec : ∀ (ds : List Nat) (n : Nat), n < ds.sum →
    (splitList ds n).1 < ds.length ∧
    (splitList ds n).2 < ds.getD (splitList ds n).1 0 ∧
    (ds.take (splitList ds n).1).sum + (splitList ds n).2 = n := by
  intro ds
  induction ds with
  | nil => intro n hn; simp at hn
  | cons d rest ih =>
    intro n hn
    by_cases hlt : n < d
    · rw [show splitList (d :: rest) n = (0, n) from by rw [splitList, if_pos hlt]]
      exact ⟨by simp, by simpa [List.getD] using hlt, by simp⟩
    · have hge : d ≤ n := by omega
      have hsum : n - d < rest.sum := by simp [List.sum_cons] at hn; omega
      rw [show splitList (d :: rest) n = ((splitList rest (n - d)).1 + 1, (splitList rest (n - d)).2)
        from by rw [splitList, if_neg hlt]]
      obtain ⟨ha, hb, hc⟩ := ih (n - d) hsum
      refine ⟨by simpa using ha, by simpa [List.getD] using hb, ?_⟩
      simp only [List.take_succ_cons, List.sum_cons]
      omega

theorem monthsOf_length (leap : Bool) : (monthsOf leap).length = 12 := by
  cases leap <;> rfl

theorem monthsOf_sum (leap : Bool) : (monthsOf leap).sum = if leap then 366 else 365 := by
  cases leap <;> rfl

theorem monthsOf_sum_daysInYear (y : Nat) : (monthsOf (isLeapYear y)).sum = daysInYear y := by
  rw [monthsOf_sum, daysInYear]

theorem monthsOf_getD_le (leap : Bool) (i : Nat) : (monthsOf leap).getD i 0 ≤ 31 := by
  rcases Nat.lt_or_ge i 12 with h | h
  · cases leap <;> interval_cases i <;> decide
  · rw [List.getD_eq_default]
    · omega
    · rw [monthsOf_length]; omega

theorem monthsOf_getD_pos (leap : Bool) {i : Nat} (h : i < 12) : 0 < (monthsOf leap).getD i 0 := by
  cases leap <;> interval_cases i <;> decide

theorem sum_take_getD : ∀ (ds : List Nat) (i : Nat), i < ds.length →
    (ds.take (i + 1)).sum = (ds.take i).sum + ds.getD i 0 := by
  intro ds
  induction ds with
  | nil => intro i hi; simp at hi
  | cons d rest ih =>
    intro i hi
    cases i with
    | zero => simp [List.getD]
    | succ i =>
      simp only [List.take_succ_cons, List.sum_cons]
      rw [ih i (by simpa using hi)]
      simp [List.getD]
      omega

theorem sum_take_mono : ∀ (ds : List Nat) (i j : Nat), i ≤ j →
    (ds.take i).sum ≤ (ds.take j).sum := by
  intro ds
  induction ds with
  | nil => intro i j _; simp
  | cons d rest ih =>
    intro i j hij
    cases i with
    | zero => simp
    | succ i =>
      cases j with
      | zero => omega
      | succ j =>
        simp only [List.take_succ_cons, List.sum_cons]
        have := ih i j (by omega)
        omega

theorem civilFromDays_spec {n : Nat} (hn : n ≤ 2932896) :
    1970 ≤ (civilFromDays n).1 ∧ (civilFromDays n).1 ≤ 9999 ∧
    1 ≤ (civilFromDays n).2.1 ∧ (civilFromDays n).2.1 ≤ 12 ∧
    1 ≤ (civilFromDays n).2.2 ∧
    (civilFromDays n).2.2 ≤ monthLen (isLeapYear (civilFromDays n).1) (civilFromDays n).2.1 ∧
    monthDaysBefore (isLeapYear (civilFromDays n).1) (civilFromDays n).2.1 +
      ((civilFromDays n).2.2 - 1) < daysInYear (civilFromDays n).1 ∧
    daysUpTo (civilFromDays n).1 +
      (monthDaysBefore (isLeapYear (civilFromDays n).1) (civilFromDays n).2.1 +
        ((civilFromDays n).2.2 - 1)) = n := by
  have hys := yearSplit_spec (n + 1) n 1970 (by omega)
  set p := yearSplit (n + 1) 1970 n with hp
  obtain ⟨h1, h2, h3⟩ := hys
  have hdut : daysUpTo p.1 = yearDaysFrom 1970 (p.1 - 1970) := rfl
  have hy9999 : p.1 ≤ 9999 := by
    by_contra hgt
    have hmono := daysUpTo_mono (by norm_num) (show 10000 ≤ p.1 from by omega)
    rw [daysUpTo_10000] at hmono
    omega
  have hsum : p.2 < (monthsOf (isLeapYear p.1)).sum := by
    rw [monthsOf_sum_daysInYear]; exact h1
  have hms := splitList_spec (monthsOf (isLeapYear p.1)) p.2 hsum
  set q := splitList (monthsOf (isLeapYear p.1)) p.2 with hq
  obtain ⟨m1, m2, m3⟩ := hms
  rw [monthsOf_length] at m1
  have hc : civilFromDays n = (p.1, q.1 + 1, q.2 + 1) := rfl
  rw [hc]
  dsimp only
  have hml : monthLen (isLeapYear p.1) (q.1 + 1) = (monthsOf (isLeapYear p.1)).getD q.1 0 := by
    simp [monthLen]
  have hmdb : monthDaysBefore (isLeapYear p.1) (q.1 + 1) =
      ((monthsOf (isLeapYear p.1)).take q.1).sum := by
    simp [monthDaysBefore]
  refine ⟨h2, hy9999, by omega, by omega, by omega, by omega, by omega, by omega⟩

theorem epochDays_civilFromDays {n : Nat} (hn : n ≤ 2932896) :
    epochDays (civilFromDays n).1 (civilFromDays n).2.1 (civilFromDays n).2.2 = (n : Int) := by
  obtain ⟨h1970, -, -, -, hd1, -, -, hsum⟩ := civilFromDays_spec hn
  unfold epochDays
  rw [if_pos h1970]
  omega

theorem MAX_EPOCH_div_day : MAX_EPOCH / 86400000 = 2932896 := by decide

theorem expectChar_neg {x c : Char} (h : x ≠ c) (r : List Char) :
    expectChar c (x :: r) = none := by
  simp [expectChar, h]

theorem expectChar_padDigits_ne {k n : Nat} {c : Char} (hk : 0 < k) (hn : n < 10 ^ k)
    (hc : ¬ (48 ≤ c.toNat ∧ c.toNat ≤ 57)) (rest : List Char) :
    expectChar c (padDigits k n ++ rest) = none := by
  obtain ⟨j, rfl⟩ : ∃ j, k = j + 1 := ⟨k - 1, by omega⟩
  have hd : n / 10 ^ j < 10 := Nat.div_lt_of_lt_mul (by rw [pow_succ] at hn; omega)
  rw [show padDigits (j + 1) n ++ rest =
    digitChar (n / 10 ^ j) :: (padDigits j (n % 10 ^ j) ++ rest) from rfl]
  exact expectChar_neg (digitChar_ne hd hc) _

theorem fdiv_cast_four (a : Nat) : (a : Int).fdiv 4 = ((a / 4 : Nat) : Int) := by
  have h4 : (4 : Int) = ((4 : Nat) : Int) := by norm_num
  rw [h4, ← Int.ofNat_fdiv]

theorem fdiv_cast_hundred (a : Nat) : (a : Int).fdiv 100 = ((a / 100 : Nat) : Int) := by
  have h100 : (100 : Int) = ((100 : Nat) : Int) := by norm_num
  rw [h100, ← Int.ofNat_fdiv]

theorem fdiv_cast_fourHundred (a : Nat) : (a : Int).fdiv 400 = ((a / 400 : Nat) : Int) := by
  have h400 : (400 : Int) = ((400 : Nat) : Int) := by norm_num
  rw [h400, ← Int.ofNat_fdiv]

theorem isLeapYearZ_natCast (y : Nat) : isLeapYearZ (y : Int) = isLeapYear y := by
  unfold isLeapYearZ isLeapYear
  have h4 : decide ((y : Int) % 4 = 0) = decide (y % 4 = 0) := by
    rw [decide_eq_decide]
    omega
  have h100 : decide ((y : Int) % 100 ≠ 0) = decide (y % 100 ≠ 0) := by
    rw [decide_eq_decide]
    omega
  have h400 : decide ((y : Int) % 400 = 0) = decide (y % 400 = 0) := by
    rw [decide_eq_decide]
    omega
  rw [h4, h100, h400]

theorem dayFromYear_succ {y : Nat} (h : 1970 ≤ y) :
    dayFromYear ((y : Int) + 1) = dayFromYear (y : Int) + (daysInYear y : Int) := by
  unfold dayFromYear
  have e1 : ((y : Int) + 1) - 1969 = ((y - 1968 : Nat) : Int) := by omega
  have e2 : ((y : Int) + 1) - 1901 = ((y - 1900 : Nat) : Int) := by omega
  have e3 : ((y : Int) + 1) - 1601 = ((y - 1600 : Nat) : Int) := by omega
  have f1 : ((y : Int)) - 1969 = ((y - 1969 : Nat) : Int) := by omega
  have f2 : ((y : Int)) - 1901 = ((y - 1901 : Nat) : Int) := by omega
  have f3 : ((y : Int)) - 1601 = ((y - 1601 : Nat) : Int) := by omega
  rw [e1, e2, e3, f1, f2, f3, fdiv_cast_four, fdiv_cast_four, fdiv_cast_hundred,
    fdiv_cast_hundred, fdiv_cast_fourHundred, fdiv_cast_fourHundred]
  unfold daysInYear
  cases hly : isLeapYear y <;>
    simp only [isLeapYear, Bool.or_eq_true, Bool.and_eq_true, decide_eq_true_eq,
      bne_iff_ne, ne_eq, decide_eq_false_iff_not, Bool.or_eq_false_iff,
      Bool.and_eq_false_iff] at hly <;>
    norm_num <;> omega

theorem dayFromYear_eq_daysUpTo {y : Nat} (h : 1970 ≤ y) :
    dayFromYear (y : Int) = (daysUpTo y : Int) := by
  induction y, h using Nat.le_induction with
  | base => decide
  | succ y hy ih =>
    have hcast : ((y + 1 : Nat) : Int) = (y : Int) + 1 := by push_cast; ring
    rw [hcast, dayFromYear_succ hy, ih, daysUpTo_succ hy]
    push_cast
    ring

theorem epochDaysZ_natCast {y : Nat} (m d : Nat) (h : 1970 ≤ y) :
    epochDaysZ (y : Int) m d = epochDays y m d := by
  unfold epochDaysZ epochDays
  rw [isLeapYearZ_natCast, dayFromYear_eq_daysUpTo h, if_pos h]

theorem timeClip_of_le {t : Nat} (h : t ≤ MAX_EPOCH) {v : Int} (hv : v = (t : Int)) :
    timeClip v = some (t : Int) := by
  subst hv
  have hME : MAX_EPOCH = 253402300799999 := rfl
  have hno : ¬((t : Int) < -8640000000000000 ∨ 8640000000000000 < (t : Int)) := by omega
  unfold timeClip
  rw [if_neg hno]

theorem jsDateParse_toISOChars {t : Nat} (h : t ≤ MAX_EPOCH) :
    jsDateParse (toISOChars t) = some (t : Int) := by
  have hn : t / 86400000 ≤ 2932896 := by
    have hdiv : t / 86400000 ≤ MAX_EPOCH / 86400000 := Nat.div_le_div_right h
    rw [MAX_EPOCH_div_day] at hdiv
    exact hdiv
  obtain ⟨h1970, h9999, hm1, hm12, hd1, hdle, hdoy, hsum⟩ := civilFromDays_spec hn
  have hml : monthLen (isLeapYear (civilFromDays (t / 86400000)).1) (civilFromDays (t / 86400000)).2.1 =
      (monthsOf (isLeapYear (civilFromDays (t / 86400000)).1)).getD ((civilFromDays (t / 86400000)).2.1 - 1) 0 := rfl
  have hd31 : (civilFromDays (t / 86400000)).2.2 ≤ 31 := by
    have := monthsOf_getD_le (isLeapYear (civilFromDays (t / 86400000)).1)
      ((civilFromDays (t / 86400000)).2.1 - 1)
    omega
  set c := civilFromDays (t / 86400000) with hc
  have hy4 : c.1 < 10 ^ 4 := by norm_num; omega
  have hm2 : c.2.1 < 10 ^ 2 := by norm_num; omega
  have hd2 : c.2.2 < 10 ^ 2 := by norm_num; omega
  have hh24 : t / 3600000 % 24 < 24 := Nat.mod_lt _ (by norm_num)
  have hmi60 : t / 60000 % 60 < 60 := Nat.mod_lt _ (by norm_num)
  have hs60 : t / 1000 % 60 < 60 := Nat.mod_lt _ (by norm_num)
  have hms1000 : t % 1000 < 1000 := Nat.mod_lt _ (by norm_num)
  have hh2 : t / 3600000 % 24 < 10 ^ 2 := by norm_num; omega
  have hmi2 : t / 60000 % 60 < 10 ^ 2 := by norm_num; omega
  have hs2 : t / 1000 % 60 < 10 ^ 2 := by norm_num; omega
  have hms3 : t % 1000 < 10 ^ 3 := by norm_num; omega
  rw [show toISOChars t = padDigits 4 c.1 ++ '-' :: (padDigits 2 c.2.1 ++ '-' ::
    (padDigits 2 c.2.2 ++ 'T' :: (padDigits 2 (t / 3600000 % 24) ++ ':' ::
    (padDigits 2 (t / 60000 % 60) ++ ':' :: (padDigits 2 (t / 1000 % 60) ++ '.' ::
    (padDigits 3 (t % 1000) ++ [ 'Z'])))))) from rfl]
  simp only [jsDateParse]
  rw [@expectChar_padDigits_ne 4 c.1 '+' (by norm_num) hy4 (by decide) _]
  dsimp only
  rw [@expectChar_padDigits_ne 4 c.1 '-' (by norm_num) hy4 (by decide) _]
  dsimp only
  rw [readDigits_padDigits _ hy4]
  dsimp only
  simp only [parseAfterYear]
  simp [expectChar]
  rw [readDigits_padDigits _ hm2]
  simp [expectChar]
  rw [readDigits_padDigits _ hd2]
  simp only [finishDate]
  rw [if_pos (show 1 ≤ c.2.1 ∧ c.2.1 ≤ 12 ∧ 1 ≤ c.2.2 ∧
    c.2.2 ≤ monthLen (isLeapYearZ (c.1 : Int)) c.2.1
    from ⟨hm1, hm12, hd1, by rw [isLeapYearZ_natCast]; exact hdle⟩)]
  simp [expectChar]
  simp only [parseTimeTail]
  rw [readDigits_padDigits _ hh2]
  simp [expectChar]
  rw [readDigits_padDigits _ hmi2]
  simp [expectChar]
  rw [readDigits_padDigits _ hs2]
  simp [expectChar]
  rw [readDigits_padDigits _ hms3]
  dsimp only
  rw [if_pos (show (t / 3600000 % 24 ≤ 23 ∨ (t / 3600000 % 24 = 24 ∧ t / 60000 % 60 = 0 ∧
    t / 1000 % 60 = 0 ∧ t % 1000 = 0)) ∧ t / 60000 % 60 ≤ 59 ∧ t / 1000 % 60 ≤ 59
    from ⟨Or.inl (by omega), by omega, by omega⟩)]
  simp [parseOffset, expectChar]
  have hed : epochDays c.1 c.2.1 c.2.2 = ((t / 86400000 : Nat) : Int) := epochDays_civilFromDays hn
  have hez : epochDaysZ (c.1 : Int) c.2.1 c.2.2 = ((t / 86400000 : Nat) : Int) := by
    rw [epochDaysZ_natCast _ _ h1970, hed]
  simp only [dateValue, hez]
  apply timeClip_of_le h
  push_cast
  omega

theorem pipe_notMem_toISOChars {u : Nat} (h : u ≤ MAX_EPOCH) : '|' ∉ toISOChars u := by
  have hn : u / 86400000 ≤ 2932896 := by
    have hdiv : u / 86400000 ≤ MAX_EPOCH / 86400000 := Nat.div_le_div_right h
    rw [MAX_EPOCH_div_day] at hdiv
    exact hdiv
  obtain ⟨h1970, h9999, hm1, hm12, hd1, hdle, hdoy, hsum⟩ := civilFromDays_spec hn
  have hml : monthLen (isLeapYear (civilFromDays (u / 86400000)).1) (civilFromDays (u / 86400000)).2.1 =
      (monthsOf (isLeapYear (civilFromDays (u / 86400000)).1)).getD
        ((civilFromDays (u / 86400000)).2.1 - 1) 0 := rfl
  have hd31 : (civilFromDays (u / 86400000)).2.2 ≤ 31 := by
    have := monthsOf_getD_le (isLeapYear (civilFromDays (u / 86400000)).1)
      ((civilFromDays (u / 86400000)).2.1 - 1)
    omega
  set c := civilFromDays (u / 86400000) with hc
  have hy4 : c.1 < 10 ^ 4 := by norm_num; omega
  have hm2 : c.2.1 < 10 ^ 2 := by norm_num; omega
  have hd2 : c.2.2 < 10 ^ 2 := by norm_num; omega
  have hh2 : u / 3600000 % 24 < 10 ^ 2 := by
    have := Nat.mod_lt (u / 3600000) (show 0 < 24 from by norm_num); norm_num; omega
  have hmi2 : u / 60000 % 60 < 10 ^ 2 := by
    have := Nat.mod_lt (u / 60000) (show 0 < 60 from by norm_num); norm_num; omega
  have hs2 : u / 1000 % 60 < 10 ^ 2 := by
    have := Nat.mod_lt (u / 1000) (show 0 < 60 from by norm_num); norm_num; omega
  have hms3 : u % 1000 < 10 ^ 3 := by
    have := Nat.mod_lt u (show 0 < 1000 from by norm_num); norm_num; omega
  intro hmem
  rw [show toISOChars u = padDigits 4 c.1 ++ '-' :: (padDigits 2 c.2.1 ++ '-' ::
    (padDigits 2 c.2.2 ++ 'T' :: (padDigits 2 (u / 3600000 % 24) ++ ':' ::
    (padDigits 2 (u / 60000 % 60) ++ ':' :: (padDigits 2 (u / 1000 % 60) ++ '.' ::
    (padDigits 3 (u % 1000) ++ [ 'Z'])))))) from rfl] at hmem
  simp only [List.mem_append, List.mem_cons, List.mem_singleton, List.not_mem_nil,
    or_false] at hmem
  rcases hmem with hp | hp | hp | hp | hp | hp | hp | hp | hp | hp | hp | hp | hp | hp | hp <;>
    first
      | exact pipe_notMem_padDigits hy4 hp
      | exact pipe_notMem_padDigits hm2 hp
      | exact pipe_notMem_padDigits hd2 hp
      | exact pipe_notMem_padDigits hh2 hp
      | exact pipe_notMem_padDigits hmi2 hp
      | exact pipe_notMem_padDigits hs2 hp
      | exact pipe_notMem_padDigits hms3 hp
      | exact absurd hp (by decide)

/-- C6 (amended): for every timestamp with in-range fields whose nodeId does
not contain the field separator, strict decoding of its encoding succeeds and
returns it field-for-field. The claim as stated fails for nodeIds containing
the separator (see the counterexample). -/
theorem C6_roundtrip_amended (t : HLCTimestamp) (h0 : 0 ≤ t.ts) (h1 : t.ts ≤ (MAX_EPOCH : Int))
    (h2 : t.cl ≤ MAX_LOGICAL_CLOCK) (h3 : t.id ≠ []) (h4 : '|' ∉ t.id) :
    parseHLCTimestampStrict (serializeHLC t) = .ok t := by
  have hu : t.ts.toNat ≤ MAX_EPOCH := by omega
  have hcl : t.cl < 10 ^ 8 := by
    have : MAX_LOGICAL_CLOCK = 10 ^ 8 - 1 := by norm_num [MAX_LOGICAL_CLOCK, LOGICAL_CLOCK_LENGTH]
    omega
  have hser : serializeHLC t = toISOChars t.ts.toNat ++ '|' ::
      (padDigits 8 t.cl ++ '|' :: t.id) := rfl
  rw [hser, parseHLCTimestampStrict, jsSplit_append _ (pipe_notMem_toISOChars hu),
    jsSplit_append _ (pipe_notMem_padDigits hcl), jsSplit_sepFree h4]
  dsimp only
  have hne : t.id.isEmpty = false := by
    cases hid : t.id with
    | nil => exact absurd hid h3
    | cons a l => rfl
  rw [if_neg (by rw [hne]; exact Bool.false_ne_true)]
  rw [jsDateParse_toISOChars hu]
  dsimp only
  have hts : ((t.ts.toNat : Nat) : Int) = t.ts := Int.toNat_of_nonneg h0
  rw [if_neg (by rw [hts]; omega)]
  rw [jsParseInt_padDigits (by norm_num) hcl]
  dsimp only
  rw [if_neg (by omega)]
  rw [hts]
  have hcl2 : ((t.cl : Int)).toNat = t.cl := Int.toNat_natCast t.cl
  rw [hcl2]

theorem C6_witness :
    parseHLCTimestampStrict (serializeHLC ⟨0, 0, [ 'n']⟩) = .ok (⟨0, 0, [ 'n']⟩ : HLCTimestamp) :=
  C6_roundtrip_amended ⟨0, 0, [ 'n']⟩ (by decide) (by decide) (by decide) (by decide) (by decide)

theorem C6_counterexample :
    ([ 'a', '|', 'b'] : List Char) ≠ [] ∧
    parseHLCTimestampStrict (serializeHLC ⟨0, 0, [ 'a', '|', 'b']⟩) =
      .error (.timestampParsingError (serializeHLC ⟨0, 0, [ 'a', '|', 'b']⟩) .invalidFormat) :=
  ⟨by decide, rfl⟩

/-- C7 helper: the code accepts a counter field with trailing non-digit
characters (parseInt semantics), contradicting the claim's rejection clause. -/
theorem C7_counterexample :
    parseHLCTimestampStrict
        ([ '1', '9', '7', '0', '-', '0', '1', '-', '0', '1', 'T', '0', '0', ':', '0', '0', ':',
          '0', '0', '.', '0', '0', '0', 'Z', '|', '0', '0', '0', '0', '0', '0', '0', '1', 'a',
          'b', 'c', '|', 'n', 'o', 'd', 'e']) =
      .ok ⟨0, 1, [ 'n', 'o', 'd', 'e']⟩ := by
  rfl

/-- The embedded parser accepts an ECMAScript expanded-year (±YYYYYY) date
string, exactly as the host Date constructor does (Date Time String Format,
extended years). -/
theorem parseHLCTimestampStrict_expandedYear :
    parseHLCTimestampStrict
        ([ '+', '0', '0', '2', '0', '2', '5', '-', '0', '5', '-', '2', '2', 'T', '1', '2', ':',
          '3', '4', ':', '5', '6', '.', '7', '8', '9', 'Z', '|', '0', '0', '0', '0', '0', '0',
          '0', '1', '|', 'n']) =
      .ok ⟨1747917296789, 1, [ 'n']⟩ := by
  rfl

/-- C7 (amended): strict decoding fails with a TimestampParsingError exactly
when the field count is not 3, the nodeId field is empty, the date field is
unparseable as ISO-8601 or out of [0, MAX_EPOCH], or the counter field is
unparseable under parseInt semantics (no leading digit run after optional
white space and sign; trailing non-digits are ignored, not rejected),
negative, or greater than MAX_LOGICAL_CLOCK. -/
theorem C7_strict_decode_rejection (s : List Char) :
    (∃ reason, parseHLCTimestampStrict s = .error (.timestampParsingError s reason)) ↔
      (match jsSplit '|' s with
       | [dateF, clF, idF] =>
         idF = [] ∨
         (match jsDateParse dateF with
          | none => True
          | some v => v < 0 ∨ v > (MAX_EPOCH : Int)) ∨
         (match jsParseInt clF with
          | none => True
          | some c => c < 0 ∨ c > (MAX_LOGICAL_CLOCK : Int))
       | _ => True) := by
  rcases hsp : jsSplit '|' s with _ | ⟨d1, _ | ⟨d2, _ | ⟨d3, _ | ⟨d4, rest⟩⟩⟩⟩ <;>
    simp only [parseHLCTimestampStrict, hsp]
  · exact ⟨fun _ => trivial, fun _ => ⟨.invalidFormat, rfl⟩⟩
  · exact ⟨fun _ => trivial, fun _ => ⟨.invalidFormat, rfl⟩⟩
  · exact ⟨fun _ => trivial, fun _ => ⟨.invalidFormat, rfl⟩⟩
  · by_cases hid0 : d3.isEmpty = true
    · rw [if_pos hid0]
      have hid : d3 = [] := by simpa [List.isEmpty_iff] using hid0
      exact ⟨fun _ => Or.inl hid, fun _ => ⟨.invalidNodeId, rfl⟩⟩
    · rw [if_neg hid0]
      have hid : ¬ d3 = [] := by simpa [List.isEmpty_iff] using hid0
      rcases hdp : jsDateParse d1 with _ | v
      · exact ⟨fun _ => Or.inr (Or.inl trivial), fun _ => ⟨.invalidTimestamp, rfl⟩⟩
      · dsimp only
        by_cases hrange : v < 0 ∨ v > (MAX_EPOCH : Int)
        · rw [if_pos hrange]
          exact ⟨fun _ => Or.inr (Or.inl hrange), fun _ => ⟨.invalidTimestamp, rfl⟩⟩
        · rw [if_neg hrange]
          rcases hpi : jsParseInt d2 with _ | cv
          · exact ⟨fun _ => Or.inr (Or.inr trivial), fun _ => ⟨.invalidLogicalCounter, rfl⟩⟩
          · dsimp only
            by_cases hcr : cv < 0 ∨ cv > (MAX_LOGICAL_CLOCK : Int)
            · rw [if_pos hcr]
              exact ⟨fun _ => Or.inr (Or.inr hcr), fun _ => ⟨.invalidLogicalCounter, rfl⟩⟩
            · rw [if_neg hcr]
              constructor
              · rintro ⟨r, hr⟩; cases hr
              · intro hcontra
                rcases hcontra with hcc | hcc | hcc
                · exact absurd hcc hid
                · exact absurd hcc hrange
                · exact absurd hcc hcr
  · exact ⟨fun _ => trivial, fun _ => ⟨.invalidFormat, rfl⟩⟩

/- ---------- helper lemmas on the lexicographic string order ---------- -/

theorem jsStrLt_cons_cons (a b : Char) (as bs : List Char) :
    jsStrLt (a :: as) (b :: bs) =
      if a.toNat < b.toNat then true
      else if b.toNat < a.toNat then false
      else jsStrLt as bs := rfl

theorem jsStrLt_irrefl : ∀ l : List Char, jsStrLt l l = false := by
  intro l
  induction l with
  | nil => rfl
  | cons c rest ih => simp [jsStrLt_cons_cons, ih]

theorem jsStrLt_asymm : ∀ x y : List Char, jsStrLt x y = true → jsStrLt y x = false := by
  intro x
  induction x with
  | nil =>
    intro y hy
    cases y with
    | nil => cases hy
    | cons b bs => rfl
  | cons a as ih =>
    intro y hy
    cases y with
    | nil => cases hy
    | cons b bs =>
      rw [jsStrLt_cons_cons] at hy ⊢
      by_cases h1 : a.toNat < b.toNat
      · rw [if_neg (by omega), if_pos h1]
      · by_cases h2 : b.toNat < a.toNat
        · rw [if_neg h1, if_pos h2] at hy
          cases hy
        · rw [if_neg h1, if_neg h2] at hy
          rw [if_neg h2, if_neg h1]
          exact ih bs hy

theorem jsStrLt_cons_same (c : Char) (x y : List Char) :
    jsStrLt (c :: x) (c :: y) = jsStrLt x y := by
  simp [jsStrLt_cons_cons]

theorem jsStrLt_append_congr : ∀ (a b x y : List Char), a.length = b.length →
    jsStrLt (a ++ x) (b ++ y) = (if a = b then jsStrLt x y else jsStrLt a b) := by
  intro a
  induction a with
  | nil =>
    intro b x y hlen
    have hb : b = [] := List.length_eq_zero.mp hlen.symm
    subst hb
    simp
  | cons c as ih =>
    intro b x y hlen
    cases b with
    | nil => simp at hlen
    | cons d bs =>
      have hlen2 : as.length = bs.length := by simpa using hlen
      by_cases h1 : c.toNat < d.toNat
      · have hne : (c :: as : List Char) ≠ d :: bs := by
          intro he
          cases he
          omega
        rw [List.cons_append, List.cons_append, jsStrLt_cons_cons, if_pos h1, if_neg hne,
          jsStrLt_cons_cons, if_pos h1]
      · by_cases h2 : d.toNat < c.toNat
        · have hne : (c :: as : List Char) ≠ d :: bs := by
            intro he
            cases he
            omega
          rw [List.cons_append, List.cons_append, jsStrLt_cons_cons, if_neg h1, if_pos h2,
            if_neg hne, jsStrLt_cons_cons, if_neg h1, if_pos h2]
        · have hcd : c = d := char_eq_of_toNat_eq (by omega)
          subst hcd
          rw [List.cons_append, List.cons_append, jsStrLt_cons_same, ih bs x y hlen2]
          by_cases h3 : as = bs
          · rw [if_pos h3, if_pos (by rw [h3])]
          · rw [if_neg h3, if_neg (by intro he; exact h3 (by injection he)), jsStrLt_cons_same]

theorem padDigits_lt : ∀ (k m n : Nat), m < 10 ^ k → n < 10 ^ k → m < n →
    jsStrLt (padDigits k m) (padDigits k n) = true := by
  intro k
  induction k with
  | zero => intro m n hm hn h; simp at hm hn; omega
  | succ k ih =>
    intro m n hm hn h
    have hdm : m / 10 ^ k < 10 := Nat.div_lt_of_lt_mul (by rw [pow_succ] at hm; omega)
    have hdn : n / 10 ^ k < 10 := Nat.div_lt_of_lt_mul (by rw [pow_succ] at hn; omega)
    have hdle : m / 10 ^ k ≤ n / 10 ^ k := Nat.div_le_div_right (by omega)
    rw [show padDigits (k + 1) m = digitChar (m / 10 ^ k) :: padDigits k (m % 10 ^ k) from rfl,
      show padDigits (k + 1) n = digitChar (n / 10 ^ k) :: padDigits k (n % 10 ^ k) from rfl,
      jsStrLt_cons_cons, digitChar_toNat hdm, digitChar_toNat hdn]
    rcases Nat.lt_or_ge (m / 10 ^ k) (n / 10 ^ k) with hlt | hge
    · rw [if_pos (by omega)]
    · have heq : m / 10 ^ k = n / 10 ^ k := by omega
      rw [if_neg (by omega), if_neg (by omega)]
      have h1 := Nat.div_add_mod m (10 ^ k)
      have h2 := Nat.div_add_mod n (10 ^ k)
      rw [heq] at h1
      have hmr : m % 10 ^ k < n % 10 ^ k := by omega
      exact ih _ _ (Nat.mod_lt _ (Nat.pos_pow_of_pos k (by omega)))
        (Nat.mod_lt _ (Nat.pos_pow_of_pos k (by omega))) hmr

theorem padDigits_ne {k m n : Nat} (hm : m < 10 ^ k) (hn : n < 10 ^ k) (h : m ≠ n) :
    padDigits k m ≠ padDigits k n := by
  intro he
  rcases Nat.lt_or_ge m n with hlt | hge
  · have := padDigits_lt k m n hm hn hlt
    rw [he, jsStrLt_irrefl] at this
    cases this
  · have hlt : n < m := by omega
    have := padDigits_lt k n m hn hm hlt
    rw [he, jsStrLt_irrefl] at this
    cases this

theorem strLt_pad_eq (k n : Nat) (x y : List Char) :
    jsStrLt (padDigits k n ++ x) (padDigits k n ++ y) = jsStrLt x y := by
  rw [jsStrLt_append_congr _ _ _ _ rfl, if_pos rfl]

theorem strLt_pad_lt {k m n : Nat} (hm : m < 10 ^ k) (hn : n < 10 ^ k) (h : m < n)
    (x y : List Char) : jsStrLt (padDigits k m ++ x) (padDigits k n ++ y) = true := by
  rw [jsStrLt_append_congr _ _ _ _ (by rw [padDigits_length, padDigits_length]),
    if_neg (padDigits_ne hm hn (by omega)), padDigits_lt k m n hm hn h]

theorem toISOChars_length (u : Nat) : (toISOChars u).length = 24 := by
  rw [show toISOChars u = padDigits 4 (civilFromDays (u / 86400000)).1 ++ '-' ::
    (padDigits 2 (civilFromDays (u / 86400000)).2.1 ++ '-' ::
    (padDigits 2 (civilFromDays (u / 86400000)).2.2 ++ 'T' ::
    (padDigits 2 (u / 3600000 % 24) ++ ':' :: (padDigits 2 (u / 60000 % 60) ++ ':' ::
    (padDigits 2 (u / 1000 % 60) ++ '.' :: (padDigits 3 (u % 1000) ++ [ 'Z'])))))) from rfl]
  simp [padDigits_length]

theorem split_lex (K : Nat) {x1 x2 : Nat} (h : x1 < x2) :
    x1 / K < x2 / K ∨ (x1 / K = x2 / K ∧ x1 % K < x2 % K) := by
  rcases Nat.lt_trichotomy (x1 / K) (x2 / K) with hlt | heq | hgt
  · exact Or.inl hlt
  · right
    refine ⟨heq, ?_⟩
    have e1 := Nat.div_add_mod x1 K
    have e2 := Nat.div_add_mod x2 K
    rw [heq] at e1
    omega
  · have hle : x1 / K ≤ x2 / K := Nat.div_le_div_right (by omega)
    omega

theorem hourField_eq (t : Nat) : t / 3600000 % 24 = t % 86400000 / 3600000 := by omega

theorem minuteField_eq (t : Nat) : t / 60000 % 60 = t % 3600000 / 60000 := by omega

theorem secondField_eq (t : Nat) : t / 1000 % 60 = t % 60000 / 1000 := by omega

theorem timeFields_lex {t1 t2 : Nat} (h12 : t1 < t2) (hdeq : t1 / 86400000 = t2 / 86400000) :
    t1 / 3600000 % 24 < t2 / 3600000 % 24 ∨
    (t1 / 3600000 % 24 = t2 / 3600000 % 24 ∧ (t1 / 60000 % 60 < t2 / 60000 % 60 ∨
      (t1 / 60000 % 60 = t2 / 60000 % 60 ∧ (t1 / 1000 % 60 < t2 / 1000 % 60 ∨
        (t1 / 1000 % 60 = t2 / 1000 % 60 ∧ t1 % 1000 < t2 % 1000))))) := by
  have hr : t1 % 86400000 < t2 % 86400000 := by omega
  rcases split_lex 3600000 hr with hh | ⟨hh, hr2⟩
  · left
    rw [hourField_eq t1, hourField_eq t2]
    exact hh
  · right
    have hb1 : t1 % 86400000 % 3600000 = t1 % 3600000 := by omega
    have hb2 : t2 % 86400000 % 3600000 = t2 % 3600000 := by omega
    rw [hb1, hb2] at hr2
    refine ⟨by rw [hourField_eq t1, hourField_eq t2]; exact hh, ?_⟩
    rcases split_lex 60000 hr2 with hmi | ⟨hmi, hr3⟩
    · left
      rw [minuteField_eq t1, minuteField_eq t2]
      exact hmi
    · right
      have hc1 : t1 % 3600000 % 60000 = t1 % 60000 := by omega
      have hc2 : t2 % 3600000 % 60000 = t2 % 60000 := by omega
      rw [hc1, hc2] at hr3
      refine ⟨by rw [minuteField_eq t1, minuteField_eq t2]; exact hmi, ?_⟩
      rcases split_lex 1000 hr3 with hs | ⟨hs, hr4⟩
      · left
        rw [secondField_eq t1, secondField_eq t2]
        exact hs
      · right
        refine ⟨by rw [secondField_eq t1, secondField_eq t2]; exact hs, ?_⟩
        have hd1 : t1 % 60000 % 1000 = t1 % 1000 := by omega
        have hd2 : t2 % 60000 % 1000 = t2 % 1000 := by omega
        rw [hd1, hd2] at hr4
        exact hr4

theorem toISO_strLt {t1 t2 : Nat} (h12 : t1 < t2) (hb : t2 ≤ MAX_EPOCH) :
    jsStrLt (toISOChars t1) (toISOChars t2) = true := by
  have hb1 : t1 ≤ MAX_EPOCH := by omega
  have hn1 : t1 / 86400000 ≤ 2932896 := by
    have hdiv : t1 / 86400000 ≤ MAX_EPOCH / 86400000 := Nat.div_le_div_right hb1
    rw [MAX_EPOCH_div_day] at hdiv; exact hdiv
  have hn2 : t2 / 86400000 ≤ 2932896 := by
    have hdiv : t2 / 86400000 ≤ MAX_EPOCH / 86400000 := Nat.div_le_div_right hb
    rw [MAX_EPOCH_div_day] at hdiv; exact hdiv
  obtain ⟨p1970, p9999, pm1, pm12, pd1, pdle, pdoy, psum⟩ := civilFromDays_spec hn1
  obtain ⟨q1970, q9999, qm1, qm12, qd1, qdle, qdoy, qsum⟩ := civilFromDays_spec hn2
  have pml : monthLen (isLeapYear (civilFromDays (t1 / 86400000)).1)
      (civilFromDays (t1 / 86400000)).2.1 =
      (monthsOf (isLeapYear (civilFromDays (t1 / 86400000)).1)).getD
        ((civilFromDays (t1 / 86400000)).2.1 - 1) 0 := rfl
  have qml : monthLen (isLeapYear (civilFromDays (t2 / 86400000)).1)
      (civilFromDays (t2 / 86400000)).2.1 =
      (monthsOf (isLeapYear (civilFromDays (t2 / 86400000)).1)).getD
        ((civilFromDays (t2 / 86400000)).2.1 - 1) 0 := rfl
  have pd31 : (civilFromDays (t1 / 86400000)).2.2 ≤ 31 := by
    have := monthsOf_getD_le (isLeapYear (civilFromDays (t1 / 86400000)).1)
      ((civilFromDays (t1 / 86400000)).2.1 - 1)
    omega
  have qd31 : (civilFromDays (t2 / 86400000)).2.2 ≤ 31 := by
    have := monthsOf_getD_le (isLeapYear (civilFromDays (t2 / 86400000)).1)
      ((civilFromDays (t2 / 86400000)).2.1 - 1)
    omega
  rw [show toISOChars t1 = padDigits 4 (civilFromDays (t1 / 86400000)).1 ++ '-' ::
    (padDigits 2 (civilFromDays (t1 / 86400000)).2.1 ++ '-' ::
    (padDigits 2 (civilFromDays (t1 / 86400000)).2.2 ++ 'T' ::
    (padDigits 2 (t1 / 3600000 % 24) ++ ':' :: (padDigits 2 (t1 / 60000 % 60) ++ ':' ::
    (padDigits 2 (t1 / 1000 % 60) ++ '.' :: (padDigits 3 (t1 % 1000) ++ [ 'Z'])))))) from rfl,
    show toISOChars t2 = padDigits 4 (civilFromDays (t2 / 86400000)).1 ++ '-' ::
    (padDigits 2 (civilFromDays (t2 / 86400000)).2.1 ++ '-' ::
    (padDigits 2 (civilFromDays (t2 / 86400000)).2.2 ++ 'T' ::
    (padDigits 2 (t2 / 3600000 % 24) ++ ':' :: (padDigits 2 (t2 / 60000 % 60) ++ ':' ::
    (padDigits 2 (t2 / 1000 % 60) ++ '.' :: (padDigits 3 (t2 % 1000) ++ [ 'Z'])))))) from rfl]
  rcases Nat.lt_or_ge (t1 / 86400000) (t2 / 86400000) with hdlt | hdge
  · -- the day numbers differ: the date fields decide the comparison
    have hy12 : (civilFromDays (t1 / 86400000)).1 ≤ (civilFromDays (t2 / 86400000)).1 := by
      by_contra hyc
      have hy21 : (civilFromDays (t2 / 86400000)).1 + 1 ≤ (civilFromDays (t1 / 86400000)).1 := by
        omega
      have hmono := daysUpTo_mono (show 1970 ≤ (civilFromDays (t2 / 86400000)).1 + 1 from by omega)
        hy21
      have hsucc := daysUpTo_succ q1970
      omega
    rcases Nat.lt_or_ge (civilFromDays (t1 / 86400000)).1 (civilFromDays (t2 / 86400000)).1
      with hylt | hyge
    · exact strLt_pad_lt (by norm_num; omega) (by norm_num; omega) hylt _ _
    · have hyeq : (civilFromDays (t1 / 86400000)).1 = (civilFromDays (t2 / 86400000)).1 := by
        omega
      rw [← hyeq] at qsum qdoy qdle qml ⊢
      have hdoylt : monthDaysBefore (isLeapYear (civilFromDays (t1 / 86400000)).1)
          (civilFromDays (t1 / 86400000)).2.1 + ((civilFromDays (t1 / 86400000)).2.2 - 1) <
          monthDaysBefore (isLeapYear (civilFromDays (t1 / 86400000)).1)
          (civilFromDays (t2 / 86400000)).2.1 + ((civilFromDays (t2 / 86400000)).2.2 - 1) := by
        omega
      have hm12le : (civilFromDays (t1 / 86400000)).2.1 ≤ (civilFromDays (t2 / 86400000)).2.1 := by
        by_contra hmc
        have hmlt : (civilFromDays (t2 / 86400000)).2.1 < (civilFromDays (t1 / 86400000)).2.1 := by
          omega
        have hsg := sum_take_getD (monthsOf (isLeapYear (civilFromDays (t1 / 86400000)).1))
          ((civilFromDays (t2 / 86400000)).2.1 - 1)
          (by rw [monthsOf_length]; omega)
        have hsm := sum_take_mono (monthsOf (isLeapYear (civilFromDays (t1 / 86400000)).1))
          ((civilFromDays (t2 / 86400000)).2.1 - 1 + 1) ((civilFromDays (t1 / 86400000)).2.1 - 1)
          (by omega)
        unfold monthDaysBefore at hdoylt
        omega
      rw [strLt_pad_eq, jsStrLt_cons_same]
      rcases Nat.lt_or_ge (civilFromDays (t1 / 86400000)).2.1 (civilFromDays (t2 / 86400000)).2.1
        with hmlt | hmge
      · exact strLt_pad_lt (by norm_num; omega) (by norm_num; omega) hmlt _ _
      · have hmeq : (civilFromDays (t1 / 86400000)).2.1 = (civilFromDays (t2 / 86400000)).2.1 := by
          omega
        rw [← hmeq] at qdle qdoy qsum ⊢
        have hddlt : (civilFromDays (t1 / 86400000)).2.2 < (civilFromDays (t2 / 86400000)).2.2 := by
          omega
        rw [strLt_pad_eq, jsStrLt_cons_same]
        exact strLt_pad_lt (by norm_num; omega) (by norm_num; omega) hddlt _ _
  · -- same day: the time fields decide the comparison
    have hdeq : t1 / 86400000 = t2 / 86400000 := by
      have : t1 / 86400000 ≤ t2 / 86400000 := Nat.div_le_div_right (by omega)
      omega
    rw [← hdeq]
    rw [strLt_pad_eq, jsStrLt_cons_same, strLt_pad_eq, jsStrLt_cons_same, strLt_pad_eq,
      jsStrLt_cons_same]
    have bh1 : t1 / 3600000 % 24 < 10 ^ 2 := by
      have := Nat.mod_lt (t1 / 3600000) (show 0 < 24 by norm_num)
      norm_num
      omega
    have bh2 : t2 / 3600000 % 24 < 10 ^ 2 := by
      have := Nat.mod_lt (t2 / 3600000) (show 0 < 24 by norm_num)
      norm_num
      omega
    have bm1 : t1 / 60000 % 60 < 10 ^ 2 := by
      have := Nat.mod_lt (t1 / 60000) (show 0 < 60 by norm_num)
      norm_num
      omega
    have bm2 : t2 / 60000 % 60 < 10 ^ 2 := by
      have := Nat.mod_lt (t2 / 60000) (show 0 < 60 by norm_num)
      norm_num
      omega
    have bs1 : t1 / 1000 % 60 < 10 ^ 2 := by
      have := Nat.mod_lt (t1 / 1000) (show 0 < 60 by norm_num)
      norm_num
      omega
    have bs2 : t2 / 1000 % 60 < 10 ^ 2 := by
      have := Nat.mod_lt (t2 / 1000) (show 0 < 60 by norm_num)
      norm_num
      omega
    have bms1 : t1 % 1000 < 10 ^ 3 := by
      have := Nat.mod_lt t1 (show 0 < 1000 by norm_num)
      norm_num
      omega
    have bms2 : t2 % 1000 < 10 ^ 3 := by
      have := Nat.mod_lt t2 (show 0 < 1000 by norm_num)
      norm_num
      omega
    rcases timeFields_lex h12 hdeq with hh | ⟨hh, hmi | ⟨hmi, hs | ⟨hs, hms⟩⟩⟩
    · exact strLt_pad_lt bh1 bh2 hh _ _
    · rw [← hh, strLt_pad_eq, jsStrLt_cons_same]
      exact strLt_pad_lt bm1 bm2 hmi _ _
    · rw [← hh, ← hmi, strLt_pad_eq, jsStrLt_cons_same, strLt_pad_eq, jsStrLt_cons_same]
      exact strLt_pad_lt bs1 bs2 hs _ _
    · rw [← hh, ← hmi, ← hs, strLt_pad_eq, jsStrLt_cons_same, strLt_pad_eq, jsStrLt_cons_same,
        strLt_pad_eq, jsStrLt_cons_same]
      exact strLt_pad_lt bms1 bms2 hms _ _

theorem cmp_cases (a b : HLCTimestamp) :
    compareHLCTimestamps a b = -1 ∨ compareHLCTimestamps a b = 0 ∨ compareHLCTimestamps a b = 1 := by
  unfold compareHLCTimestamps
  split_ifs <;> simp

theorem cmp_swap {a b : HLCTimestamp} (h : compareHLCTimestamps a b = 1) :
    compareHLCTimestamps b a = -1 := by
  rw [cmp_one_iff] at h
  rw [cmp_neg_iff]
  tauto

theorem serialize_strLt {a b : HLCTimestamp} (ha0 : 0 ≤ a.ts)
    (ha2 : a.cl ≤ MAX_LOGICAL_CLOCK) (hb0 : 0 ≤ b.ts) (hb1 : b.ts ≤ (MAX_EPOCH : Int))
    (hb2 : b.cl ≤ MAX_LOGICAL_CLOCK) (h : compareHLCTimestamps a b = -1) :
    jsStrLt (serializeHLC a) (serializeHLC b) = true := by
  have hclA : a.cl < 10 ^ 8 := by
    have : MAX_LOGICAL_CLOCK = 10 ^ 8 - 1 := by norm_num [MAX_LOGICAL_CLOCK, LOGICAL_CLOCK_LENGTH]
    omega
  have hclB : b.cl < 10 ^ 8 := by
    have : MAX_LOGICAL_CLOCK = 10 ^ 8 - 1 := by norm_num [MAX_LOGICAL_CLOCK, LOGICAL_CLOCK_LENGTH]
    omega
  rw [show serializeHLC a = toISOChars a.ts.toNat ++ '|' ::
    (padDigits 8 a.cl ++ '|' :: a.id) from rfl,
    show serializeHLC b = toISOChars b.ts.toNat ++ '|' ::
    (padDigits 8 b.cl ++ '|' :: b.id) from rfl]
  rw [cmp_neg_iff] at h
  rcases h with hts | ⟨hts, hcl⟩
  · have htn : a.ts.toNat < b.ts.toNat := by omega
    have hbn : b.ts.toNat ≤ MAX_EPOCH := by omega
    have hiso := toISO_strLt htn hbn
    rw [jsStrLt_append_congr _ _ _ _ (by rw [toISOChars_length, toISOChars_length])]
    rw [if_neg (fun he => by rw [he, jsStrLt_irrefl] at hiso; cases hiso)]
    exact hiso
  · have htn : a.ts.toNat = b.ts.toNat := by omega
    rw [← htn, jsStrLt_append_congr _ _ _ _ rfl, if_pos rfl, jsStrLt_cons_same]
    exact strLt_pad_lt hclA hclB hcl _ _

/-- C8: for two valid timestamps whose (physicalTime, logicalCounter) pairs
differ, plain lexicographic comparison of their string encodings orders them
exactly as compareHLCTimestamps does. -/
theorem C8_lexicographic_encoding (a b : HLCTimestamp) (ha0 : 0 ≤ a.ts)
    (ha1 : a.ts ≤ (MAX_EPOCH : Int)) (ha2 : a.cl ≤ MAX_LOGICAL_CLOCK) (hb0 : 0 ≤ b.ts)
    (hb1 : b.ts ≤ (MAX_EPOCH : Int)) (hb2 : b.cl ≤ MAX_LOGICAL_CLOCK)
    (hne : ¬(a.ts = b.ts ∧ a.cl = b.cl)) :
    (compareHLCTimestamps a b = -1 ↔ jsStrLt (serializeHLC a) (serializeHLC b) = true) ∧
    (compareHLCTimestamps a b = 1 ↔ jsStrLt (serializeHLC b) (serializeHLC a) = true) := by
  have hnz : compareHLCTimestamps a b ≠ 0 := fun hz => hne ((cmp_zero_iff a b).mp hz)
  constructor
  · constructor
    · exact fun h => serialize_strLt ha0 ha2 hb0 hb1 hb2 h
    · intro hstr
      rcases cmp_cases a b with hc | hc | hc
      · exact hc
      · exact absurd hc hnz
      · have := serialize_strLt hb0 hb2 ha0 ha1 ha2 (cmp_swap hc)
        have hasym := jsStrLt_asymm _ _ this
        rw [hstr] at hasym
        cases hasym
  · constructor
    · intro h
      exact serialize_strLt hb0 hb2 ha0 ha1 ha2 (cmp_swap h)
    · intro hstr
      rcases cmp_cases a b with hc | hc | hc
      · have := serialize_strLt ha0 ha2 hb0 hb1 hb2 hc
        have hasym := jsStrLt_asymm _ _ this
        rw [hstr] at hasym
        cases hasym
      · exact absurd hc hnz
      · exact hc

theorem C8_witness :
    jsStrLt (serializeHLC ⟨0, 0, [ 'n']⟩) (serializeHLC ⟨0, 1, [ 'n']⟩) = true :=
  (C8_lexicographic_encoding ⟨0, 0, [ 'n']⟩ ⟨0, 1, [ 'n']⟩ (by decide) (by decide) (by decide)
    (by decide) (by decide) (by decide) (by decide)).1.mp (by decide)
